import Mathlib

/-!
Verification of the Docs++ distributed document store (C sources) against its
natural-language specification.  Each C function relevant to the claims is
shallowly embedded as an executable Lean definition; machine integers are
modelled as `Nat` with explicit `% 2^32` where 32-bit overflow matters, byte
buffers as `List Nat` (each element `< 256`), strings as `String`.
-/

namespace DocsPP

/-! ## Wire protocol (src/common/protocol.c) -/

namespace Protocol

/-- 2^32, the modulus of the C `uint32_t` arithmetic. -/
def U32 : Nat := 4294967296

/-- Embeds `(checksum << 1) | (checksum >> 31)` on a `uint32_t`:
rotate a 32-bit accumulator left by one bit. -/
def rotl1 (x : Nat) : Nat := (x * 2) % U32 ||| x / 2147483648

/-- One iteration of the loop in `calculate_checksum`:
XOR the byte into the accumulator, then rotate left. -/
def checksumStep (acc b : Nat) : Nat := rotl1 (acc ^^^ b)

/-- Embeds `calculate_checksum(data, len)`: fold the XOR/rotate step over the
bytes with accumulator starting at 0. -/
def calculate_checksum (data : List Nat) : Nat := data.foldl checksumStep 0

/-- Little-endian read of a 4-byte field, as `*(uint32_t*)p` on x86. -/
def leU32 (bytes : List Nat) : Nat := bytes.foldr (fun b acc => b + 256 * acc) 0

/-- Embeds `validate_packet_integrity(packet, size)`: reject frames shorter
than 4 bytes, extract the trailing 4-byte stored checksum, recompute the
checksum over all preceding bytes, and compare. -/
def validate_packet_integrity (packet : List Nat) : Bool :=
  if packet.length < 4 then false
  else leU32 (packet.drop (packet.length - 4)) ==
       calculate_checksum (packet.take (packet.length - 4))

/-- Little-endian serialization of a `uint32_t` into 4 bytes. -/
def u32le (x : Nat) : List Nat :=
  [x % 256, x / 256 % 256, x / 65536 % 256, x / 16777216 % 256]

/-- `PROTOCOL_MAGIC` (0xD0C5). -/
def PROTOCOL_MAGIC : Nat := 0xD0C5

/-- `request_packet_t`: magic, command, username[64], args[1024], checksum.
The fixed-capacity char arrays are byte lists (null padding included). -/
structure RequestPacket where
  magic : Nat
  command : Nat
  username : List Nat
  args : List Nat
  checksum : Nat

/-- The bytes of a request packet that precede the trailing checksum field
(the region the checksum is computed over). -/
def RequestPacket.body (p : RequestPacket) : List Nat :=
  u32le p.magic ++ u32le p.command ++ p.username ++ p.args

/-- The full wire frame of a request packet. -/
def RequestPacket.bytes (p : RequestPacket) : List Nat :=
  p.body ++ u32le p.checksum

/-- Embeds the state-mutating part of `send_packet`: overwrite the magic with
`PROTOCOL_MAGIC`, then recompute the trailing checksum over all preceding
bytes; the resulting frame is what gets transmitted. -/
def send_packet (p : RequestPacket) : RequestPacket :=
  let p1 : RequestPacket := { p with magic := PROTOCOL_MAGIC }
  { p1 with checksum := calculate_checksum p1.body }

/-- `response_packet_t`: magic, status, data[4096], checksum. -/
structure ResponsePacket where
  magic : Nat
  status : Nat
  data : List Nat
  checksum : Nat

/-- Checksummed region of a response packet. -/
def ResponsePacket.body (p : ResponsePacket) : List Nat :=
  u32le p.magic ++ u32le p.status ++ p.data

/-- Full wire frame of a response packet. -/
def ResponsePacket.bytes (p : ResponsePacket) : List Nat :=
  p.body ++ u32le p.checksum

/-- Embeds the state-mutating part of `send_response`, mirroring
`send_packet`. -/
def send_response (p : ResponsePacket) : ResponsePacket :=
  let p1 : ResponsePacket := { p with magic := PROTOCOL_MAGIC }
  { p1 with checksum := calculate_checksum p1.body }

theorem rotl1_lt {x : Nat} (h : x < U32) : rotl1 x < U32 := by
  have h2 : (x * 2) % U32 < U32 := Nat.mod_lt _ (by norm_num [U32])
  have h3 : x / 2147483648 < 2 := by
    apply Nat.div_lt_of_lt_mul
    simpa [U32] using h
  have : (x * 2) % U32 ||| x / 2147483648 < U32 := by
    apply Nat.or_lt_two_pow (n := 32) <;> simp [U32] at * <;> omega
  simpa [rotl1] using this

theorem rotl1_eq_arith {x : Nat} (h : x < U32) :
    rotl1 x = 2 * (x % 2147483648) + x / 2147483648 := by
  have hsplit : x = 2147483648 * (x / 2147483648) + x % 2147483648 :=
    (Nat.div_add_mod x 2147483648).symm
  have hd : x / 2147483648 < 2 := by
    apply Nat.div_lt_of_lt_mul
    simpa [U32] using h
  have hm : x % 2147483648 < 2147483648 := Nat.mod_lt _ (by norm_num)
  have hcase : x / 2147483648 = 0 ∨ x / 2147483648 = 1 := by omega
  have hmod : (x * 2) % U32 = 2 * (x % 2147483648) := by
    rcases hcase with h0 | h1
    · have hxlt : x < 2147483648 := by omega
      have hlt : x * 2 < U32 := by simp [U32]; omega
      rw [Nat.mod_eq_of_lt hlt]
      omega
    · have hx : x = 2147483648 + x % 2147483648 := by omega
      have hre : x * 2 = U32 + 2 * (x % 2147483648) := by
        rw [hx]; simp [U32]; ring
      rw [hre, Nat.add_mod_left]
      exact Nat.mod_eq_of_lt (by omega)
  -- the low bit of 2 * (x % 2^31) is clear, so OR with a value < 2 is addition
  have hor : 2 * (x % 2147483648) ||| x / 2147483648
      = 2 * (x % 2147483648) + x / 2147483648 := by
    rcases hcase with h0 | h1
    · simp [h0]
    · rw [h1]
      have hone : 2 * (x % 2147483648) ||| 1 = 2 * (x % 2147483648) + 1 := by
        have := Nat.mul_add_lt_is_or (i := 1) (b := 1) (by norm_num) (x % 2147483648)
        simpa [Nat.mul_comm] using this.symm
      omega
  rw [rotl1, hmod, hor]

theorem rotl1_inj {x y : Nat} (hx : x < U32) (hy : y < U32)
    (h : rotl1 x = rotl1 y) : x = y := by
  rw [rotl1_eq_arith hx, rotl1_eq_arith hy] at h
  have hdx : x / 2147483648 < 2 := Nat.div_lt_of_lt_mul (by simpa [U32] using hx)
  have hdy : y / 2147483648 < 2 := Nat.div_lt_of_lt_mul (by simpa [U32] using hy)
  -- the rotated-in bit is the parity of the rotated word
  have hpar : x / 2147483648 = y / 2147483648 := by
    have h2 : (2 * (x % 2147483648) + x / 2147483648) % 2
        = (2 * (y % 2147483648) + y / 2147483648) % 2 := by rw [h]
    rwa [Nat.mul_add_mod, Nat.mul_add_mod, Nat.mod_eq_of_lt hdx,
      Nat.mod_eq_of_lt hdy] at h2
  have hmod : x % 2147483648 = y % 2147483648 := by
    rw [hpar] at h
    have hcancel := Nat.add_right_cancel h
    exact Nat.eq_of_mul_eq_mul_left (by norm_num) hcancel
  calc x = 2147483648 * (x / 2147483648) + x % 2147483648 :=
        (Nat.div_add_mod x 2147483648).symm
    _ = 2147483648 * (y / 2147483648) + y % 2147483648 := by rw [hpar, hmod]
    _ = y := Nat.div_add_mod y 2147483648

theorem checksumStep_lt {acc b : Nat} (hacc : acc < U32) (hb : b < U32) :
    checksumStep acc b < U32 := by
  have : acc ^^^ b < U32 := by
    have := Nat.xor_lt_two_pow (n := 32) (by simpa [U32] using hacc)
      (by simpa [U32] using hb)
    simpa [U32] using this
  exact rotl1_lt this

theorem checksumStep_inj {a b c : Nat} (ha : a < U32) (hb : b < U32) (hc : c < U32)
    (hne : a ≠ b) : checksumStep a c ≠ checksumStep b c := by
  intro h
  have ha' : a ^^^ c < U32 := by
    have := Nat.xor_lt_two_pow (n := 32) (by simpa [U32] using ha)
      (by simpa [U32] using hc)
    simpa [U32] using this
  have hb' : b ^^^ c < U32 := by
    have := Nat.xor_lt_two_pow (n := 32) (by simpa [U32] using hb)
      (by simpa [U32] using hc)
    simpa [U32] using this
  have hxor : a ^^^ c = b ^^^ c := rotl1_inj ha' hb' h
  apply hne
  have := congrArg (· ^^^ c) hxor
  simpa [Nat.xor_assoc] using this

theorem foldl_checksumStep_lt {l : List Nat} {acc : Nat} (hacc : acc < U32)
    (hl : ∀ b ∈ l, b < U32) : l.foldl checksumStep acc < U32 := by
  induction l generalizing acc with
  | nil => simpa using hacc
  | cons x xs ih =>
    simp only [List.foldl_cons]
    exact ih (checksumStep_lt hacc (hl x (by simp))) (fun b hb => hl b (by simp [hb]))

theorem foldl_checksumStep_inj {l : List Nat} {a b : Nat} (ha : a < U32) (hb : b < U32)
    (hl : ∀ x ∈ l, x < U32) (hne : a ≠ b) :
    l.foldl checksumStep a ≠ l.foldl checksumStep b := by
  induction l generalizing a b with
  | nil => simpa using hne
  | cons x xs ih =>
    simp only [List.foldl_cons]
    have hx : x < U32 := hl x (by simp)
    exact ih (checksumStep_lt ha hx) (checksumStep_lt hb hx)
      (fun y hy => hl y (by simp [hy]))
      (checksumStep_inj ha hb hx hne)

theorem calculate_checksum_lt {l : List Nat} (hl : ∀ b ∈ l, b < U32) :
    calculate_checksum l < U32 :=
  foldl_checksumStep_lt (by norm_num [U32]) hl

/-- Splitting a frame into its body and its 4-byte trailing checksum field:
`validate_packet_integrity` compares the stored field with the checksum of
the body. -/
theorem validate_split (body tail : List Nat) (htail : tail.length = 4) :
    validate_packet_integrity (body ++ tail) =
      (leU32 tail == calculate_checksum body) := by
  have hlen : (body ++ tail).length = body.length + 4 := by
    simp [htail]
  have hnot : ¬ (body ++ tail).length < 4 := by omega
  rw [validate_packet_integrity, if_neg hnot, hlen]
  have hsub : body.length + 4 - 4 = body.length := by omega
  rw [hsub]
  rw [List.drop_left, List.take_left]

theorem byte_lt_U32 {b : Nat} (h : b < 256) : b < U32 :=
  lt_trans h (by norm_num [U32])

theorem u32le_bytes_lt {n : Nat} : ∀ x ∈ u32le n, x < 256 := by
  intro x hx
  simp only [u32le, List.mem_cons, List.mem_singleton, List.not_mem_nil, or_false] at hx
  rcases hx with h | h | h | h <;> subst h <;> exact Nat.mod_lt _ (by norm_num)

theorem leU32_u32le {x : Nat} (h : x < U32) : leU32 (u32le x) = x := by
  simp only [leU32, u32le, List.foldr_cons, List.foldr_nil, U32] at *
  omega

/-- A different byte fed to the step at the same accumulator yields a
different accumulator (XOR is cancellative and the rotation is injective). -/
theorem checksumStep_inj_byte {acc b c : Nat} (hacc : acc < U32) (hb : b < U32)
    (hc : c < U32) (hne : b ≠ c) : checksumStep acc b ≠ checksumStep acc c := by
  intro h
  have hb' : acc ^^^ b < U32 := by
    have := Nat.xor_lt_two_pow (n := 32) (by simpa [U32] using hacc)
      (by simpa [U32] using hb)
    simpa [U32] using this
  have hc' : acc ^^^ c < U32 := by
    have := Nat.xor_lt_two_pow (n := 32) (by simpa [U32] using hacc)
      (by simpa [U32] using hc)
    simpa [U32] using this
  have hxor : acc ^^^ b = acc ^^^ c := rotl1_inj hb' hc' h
  apply hne
  have := congrArg (acc ^^^ ·) hxor
  simpa [← Nat.xor_assoc, Nat.xor_self, Nat.zero_xor] using this

/-- C5: flipping one byte of the checksummed region changes the computed
checksum (the delta through XOR/rotate-left never cancels). -/
theorem calculate_checksum_byte_flip {pre mid : List Nat} {b c : Nat}
    (hpre : ∀ x ∈ pre, x < 256) (hmid : ∀ x ∈ mid, x < 256)
    (hb : b < 256) (hc : c < 256) (hne : b ≠ c) :
    calculate_checksum (pre ++ b :: mid) ≠ calculate_checksum (pre ++ c :: mid) := by
  unfold calculate_checksum
  rw [List.foldl_append, List.foldl_append]
  simp only [List.foldl_cons]
  have hA : pre.foldl checksumStep 0 < U32 :=
    foldl_checksumStep_lt (by norm_num [U32]) (fun x hx => byte_lt_U32 (hpre x hx))
  have hb' := byte_lt_U32 hb
  have hc' := byte_lt_U32 hc
  exact foldl_checksumStep_inj (checksumStep_lt hA hb') (checksumStep_lt hA hc')
    (fun y hy => byte_lt_U32 (hmid y hy))
    (checksumStep_inj_byte hA hb' hc' hne)

end Protocol

open Protocol in
/-- C5: for a frame accepted by `validate_packet_integrity`, flipping any
single byte outside the trailing 4-byte checksum field to any different value
changes the rotate-left-XOR checksum, so `validate_packet_integrity` rejects
the modified frame; restoring the byte makes it accept again.  The frame is
written `pre ++ b :: (mid ++ tail)` with `tail` the 4-byte checksum field, so
the flipped position ranges over every non-checksum byte. -/
theorem checksum_flip_rejected (pre mid tail : List Nat) (b c : Nat)
    (hpre : ∀ x ∈ pre, x < 256) (hmid : ∀ x ∈ mid, x < 256)
    (hb : b < 256) (hc : c < 256) (htail : tail.length = 4) (hne : b ≠ c)
    (hvalid : validate_packet_integrity (pre ++ b :: (mid ++ tail)) = true) :
    validate_packet_integrity (pre ++ c :: (mid ++ tail)) = false ∧
    validate_packet_integrity (pre ++ b :: (mid ++ tail)) = true := by
  have hassoc : ∀ y : Nat, pre ++ y :: (mid ++ tail) = (pre ++ y :: mid) ++ tail := by
    intro y; simp
  have horig : leU32 tail = calculate_checksum (pre ++ b :: mid) := by
    have h := hvalid
    rw [hassoc b, validate_split _ _ htail] at h
    exact eq_of_beq h
  refine ⟨?_, hvalid⟩
  rw [hassoc c, validate_split _ _ htail]
  have hdiff : calculate_checksum (pre ++ b :: mid) ≠ calculate_checksum (pre ++ c :: mid) :=
    calculate_checksum_byte_flip hpre hmid hb hc hne
  exact beq_eq_false_iff_ne.mpr (fun h => hdiff (horig ▸ h))

/-- C5 witness: a concrete 8-byte frame (4-byte body, 4-byte checksum field)
accepted by `validate_packet_integrity`, with byte 1 flipped from 2 to 7. -/
theorem checksum_flip_rejected_witness :
    Protocol.validate_packet_integrity ([1] ++ 7 :: ([3, 4] ++ Protocol.u32le
      (Protocol.calculate_checksum [1, 2, 3, 4]))) = false ∧
    Protocol.validate_packet_integrity ([1] ++ 2 :: ([3, 4] ++ Protocol.u32le
      (Protocol.calculate_checksum [1, 2, 3, 4]))) = true :=
  checksum_flip_rejected [1] [3, 4] (Protocol.u32le
      (Protocol.calculate_checksum [1, 2, 3, 4])) 2 7
    (by decide) (by decide) (by decide) (by decide) (by decide) (by decide)
    (by decide)

open Protocol in
/-- C10: every frame produced by `send_packet` or `send_response` carries the
protocol magic 0xD0C5 and passes `validate_packet_integrity`: regardless of
the magic or checksum fields the caller left in the packet, the sender
overwrites the magic and recomputes the trailing checksum over all preceding
bytes. -/
theorem send_validate_roundtrip (p : RequestPacket) (q : ResponsePacket)
    (hu : ∀ x ∈ p.username, x < 256) (ha : ∀ x ∈ p.args, x < 256)
    (hd : ∀ x ∈ q.data, x < 256) :
    validate_packet_integrity (send_packet p).bytes = true ∧
    (send_packet p).magic = 0xD0C5 ∧
    validate_packet_integrity (send_response q).bytes = true ∧
    (send_response q).magic = 0xD0C5 := by
  refine ⟨?_, rfl, ?_, rfl⟩
  · have hbody : ∀ x ∈ (send_packet p).body, x < 256 := by
      intro x hx
      simp only [send_packet, RequestPacket.body, List.mem_append] at hx
      rcases hx with ((h | h) | h) | h
      · exact u32le_bytes_lt x h
      · exact u32le_bytes_lt x h
      · exact hu x h
      · exact ha x h
    have hcs : (send_packet p).checksum = calculate_checksum (send_packet p).body := rfl
    have hlt : calculate_checksum (send_packet p).body < U32 :=
      calculate_checksum_lt (fun x hx => byte_lt_U32 (hbody x hx))
    rw [RequestPacket.bytes, validate_split _ _ (by simp [u32le]), hcs,
      leU32_u32le hlt]
    exact beq_self_eq_true _
  · have hbody : ∀ x ∈ (send_response q).body, x < 256 := by
      intro x hx
      simp only [send_response, ResponsePacket.body, List.mem_append] at hx
      rcases hx with (h | h) | h
      · exact u32le_bytes_lt x h
      · exact u32le_bytes_lt x h
      · exact hd x h
    have hcs : (send_response q).checksum = calculate_checksum (send_response q).body := rfl
    have hlt : calculate_checksum (send_response q).body < U32 :=
      calculate_checksum_lt (fun x hx => byte_lt_U32 (hbody x hx))
    rw [ResponsePacket.bytes, validate_split _ _ (by simp [u32le]), hcs,
      leU32_u32le hlt]
    exact beq_self_eq_true _

/-- C10 witness: a concrete request and response packet with stale magic and
checksum fields, repaired and validated by the senders. -/
theorem send_validate_roundtrip_witness :
    Protocol.validate_packet_integrity (Protocol.send_packet
      ⟨0, 3, [97, 0], [102, 46, 116, 120, 116, 0], 999⟩).bytes = true ∧
    (Protocol.send_packet ⟨0, 3, [97, 0], [102, 46, 116, 120, 116, 0], 999⟩).magic = 0xD0C5 ∧
    Protocol.validate_packet_integrity (Protocol.send_response
      ⟨123, 0, [111, 107, 0], 1⟩).bytes = true ∧
    (Protocol.send_response ⟨123, 0, [111, 107, 0], 1⟩).magic = 0xD0C5 :=
  send_validate_roundtrip ⟨0, 3, [97, 0], [102, 46, 116, 120, 116, 0], 999⟩
    ⟨123, 0, [111, 107, 0], 1⟩ (by decide) (by decide) (by decide)

/-! ## Status codes (include/protocol.h) -/

def STATUS_OK : Nat := 0
def STATUS_ERROR_NOT_FOUND : Nat := 1001
def STATUS_ERROR_INVALID_ARGS : Nat := 1004
def STATUS_ERROR_SERVER_UNAVAILABLE : Nat := 1005
def STATUS_ERROR_FILE_EXISTS : Nat := 1006
def STATUS_ERROR_INVALID_FILENAME : Nat := 1007
def STATUS_ERROR_OWNER_REQUIRED : Nat := 1013
def STATUS_ERROR_NETWORK : Nat := 1014
def STATUS_ERROR_INVALID_OPERATION : Nat := 1016
def STATUS_ERROR_INTERNAL : Nat := 1020

/-- `ACCESS_READ` permission bit. -/
def ACCESS_READ : Nat := 1
/-- `ACCESS_WRITE` permission bit. -/
def ACCESS_WRITE : Nat := 2
/-- `ACCESS_BOTH = ACCESS_READ | ACCESS_WRITE`. -/
def ACCESS_BOTH : Nat := 3

/-! ## Storage server: sentence lock manager (src/storage_server/storage_server.c) -/

namespace StorageServer

/-- `sentence_lock_t`: (filename, sentence-index, holder username). -/
structure SentenceLock where
  filename : String
  sentence_index : Int
  username : String
  deriving DecidableEq, Repr

/-- The first lock in the registry matching (file, idx): the scan both
`acquire_lock` and the claims reason about. -/
def lockFor (locks : List SentenceLock) (file : String) (idx : Int) :
    Option SentenceLock :=
  locks.find? (fun l => l.filename == file && l.sentence_index == idx)

/-- Embeds `acquire_lock(file, index, user)`: scan for an existing lock on
(file, idx); held by a different user → fail; held by the same user →
idempotent success; absent → prepend a new lock and succeed.  Returns
(acquired?, new registry). -/
def acquire_lock (locks : List SentenceLock) (file : String) (idx : Int)
    (user : String) : Bool × List SentenceLock :=
  match lockFor locks file idx with
  | some l => if l.username == user then (true, locks) else (false, locks)
  | none => (true, ⟨file, idx, user⟩ :: locks)

/-- Embeds `release_lock(file, index, user)`: remove the first exact
(file, idx, user) match; releasing a non-held lock is a no-op. -/
def release_lock (locks : List SentenceLock) (file : String) (idx : Int)
    (user : String) : List SentenceLock :=
  locks.eraseP
    (fun l => l.filename == file && l.sentence_index == idx && l.username == user)

/-- At most one lock exists per (filename, sentence-index). -/
def AtMostOnePerSentence (locks : List SentenceLock) : Prop :=
  locks.Pairwise (fun a b => a.filename ≠ b.filename ∨ a.sentence_index ≠ b.sentence_index)

theorem find?_eraseP_of_disjoint {α : Type} (p q : α → Bool) (l : List α)
    (h : ∀ x, q x = true → p x = false) : (l.eraseP q).find? p = l.find? p := by
  induction l with
  | nil => rfl
  | cons a l ih =>
    by_cases hq : q a
    · rw [List.eraseP_cons_of_pos hq, List.find?_cons_of_neg _ (by simp [h a hq])]
    · rw [List.eraseP_cons_of_neg hq]
      by_cases hp : p a
      · rw [List.find?_cons_of_pos _ hp, List.find?_cons_of_pos _ hp]
      · rw [List.find?_cons_of_neg _ (by simpa using hp),
          List.find?_cons_of_neg _ (by simpa using hp)]
        exact ih

theorem lockFor_release_self (locks : List SentenceLock) (f : String) (i : Int)
    (u : String) (hinv : AtMostOnePerSentence locks)
    (hheld : lockFor locks f i = some ⟨f, i, u⟩) :
    lockFor (release_lock locks f i u) f i = none := by
  induction locks with
  | nil => simp [lockFor] at hheld
  | cons a l ih =>
    by_cases hkey : (a.filename == f && a.sentence_index == i) = true
    · have ha : a = ⟨f, i, u⟩ := by
        have hfind : lockFor (a :: l) f i = some a := by
          simp only [lockFor]
          exact List.find?_cons_of_pos
            (p := fun x : SentenceLock => x.filename == f && x.sentence_index == i) _ hkey
        rw [hfind] at hheld
        exact Option.some_inj.mp hheld.symm |>.symm
      have hq : (a.filename == f && a.sentence_index == i && a.username == u) = true := by
        subst ha; simp
      rw [release_lock, List.eraseP_cons_of_pos
        (p := fun x : SentenceLock => x.filename == f && x.sentence_index == i && x.username == u) hq]
      rw [lockFor, List.find?_eq_none]
      intro x hx
      have hrel := (List.pairwise_cons.mp hinv).1 x hx
      subst ha
      simp only [Bool.and_eq_true, beq_iff_eq, not_and]
      intro hxf
      rcases hrel with h1 | h2
      · exact absurd hxf.symm h1
      · intro hxi; exact h2 hxi.symm
    · have hq : ¬ (a.filename == f && a.sentence_index == i && a.username == u) = true := by
        intro hcon
        simp only [Bool.and_eq_true] at hcon
        exact hkey (by simp [hcon.1.1, hcon.1.2])
      have hheld' : lockFor l f i = some ⟨f, i, u⟩ := by
        simp only [lockFor] at hheld ⊢
        rwa [List.find?_cons_of_neg
          (p := fun x : SentenceLock => x.filename == f && x.sentence_index == i) _ hkey] at hheld
      rw [release_lock, List.eraseP_cons_of_neg
        (p := fun x : SentenceLock => x.filename == f && x.sentence_index == i && x.username == u) hq]
      simp only [lockFor]
      rw [List.find?_cons_of_neg
        (p := fun x : SentenceLock => x.filename == f && x.sentence_index == i) _ hkey]
      exact ih (List.pairwise_cons.mp hinv).2 hheld'

end StorageServer

open StorageServer in
/-- C6: the sentence-lock registry protocol.  With at most one lock per
(file, idx) in the registry: Acquire fails iff a different user holds the
lock, succeeds without change when the caller already holds it, inserts and
succeeds when no lock exists (preserving the at-most-one invariant); Release
removes exactly the matching lock (leaving every other (file, idx) key
untouched), releasing a non-held lock is a no-op; and after the holder
releases, a different user's Acquire on the same (file, idx) succeeds. -/
theorem sentence_lock_registry (locks : List SentenceLock) (f : String) (i : Int)
    (u v : String) (hinv : AtMostOnePerSentence locks) (huv : u ≠ v) :
    (∀ l, lockFor locks f i = some l → l.username ≠ u →
        acquire_lock locks f i u = (false, locks)) ∧
    (lockFor locks f i = some ⟨f, i, u⟩ →
        acquire_lock locks f i u = (true, locks)) ∧
    (lockFor locks f i = none →
        acquire_lock locks f i u = (true, ⟨f, i, u⟩ :: locks) ∧
        AtMostOnePerSentence (⟨f, i, u⟩ :: locks)) ∧
    (lockFor locks f i = some ⟨f, i, u⟩ →
        lockFor (release_lock locks f i u) f i = none ∧
        ∀ g j, ¬(g = f ∧ j = i) →
          lockFor (release_lock locks f i u) g j = lockFor locks g j) ∧
    ((∀ l ∈ locks, ¬(l.filename = f ∧ l.sentence_index = i ∧ l.username = u)) →
        release_lock locks f i u = locks) ∧
    (lockFor locks f i = some ⟨f, i, u⟩ →
        (acquire_lock (release_lock locks f i u) f i v).1 = true) := by
  refine ⟨?_, ?_, ?_, ?_, ?_, ?_⟩
  · intro l hl hne
    simp only [acquire_lock, hl]
    rw [if_neg (by simpa using hne)]
  · intro hl
    simp only [acquire_lock, hl]
    rw [if_pos (by simp)]
  · intro hl
    refine ⟨by simp only [acquire_lock, hl], ?_⟩
    rw [AtMostOnePerSentence, List.pairwise_cons]
    refine ⟨?_, hinv⟩
    intro b hb
    rw [lockFor, List.find?_eq_none] at hl
    have hnb := hl b hb
    simp only [Bool.and_eq_true, beq_iff_eq, not_and] at hnb
    by_cases hf : b.filename = f
    · right
      intro hie
      exact hnb hf (by simpa using hie.symm)
    · left
      exact fun hc => hf (by simpa using hc.symm)
  · intro hl
    refine ⟨lockFor_release_self locks f i u hinv hl, ?_⟩
    intro g j hgj
    rw [release_lock, lockFor,
      find?_eraseP_of_disjoint _ _ _ ?_, ← lockFor]
    intro x hx
    simp only [Bool.and_eq_true, beq_iff_eq] at hx
    simp only [Bool.and_eq_false_iff, beq_eq_false_iff_ne, ne_eq]
    by_cases hgf : x.filename = g
    · right
      intro hji
      exact hgj ⟨hgf.symm.trans hx.1.1, hji.symm.trans hx.1.2⟩
    · left
      exact hgf
  · intro hnone
    rw [release_lock]
    apply List.eraseP_of_forall_not
    intro l hl
    intro hcon
    simp only [Bool.and_eq_true, beq_iff_eq] at hcon
    exact hnone l hl ⟨hcon.1.1, hcon.1.2, hcon.2⟩
  · intro hl
    have hnone := lockFor_release_self locks f i u hinv hl
    simp only [acquire_lock, hnone]

/-- C6 witness: alice holds (file, 0); bob's acquire fails, alice's re-acquire
is an idempotent no-op, and after alice releases, bob's acquire succeeds. -/
theorem sentence_lock_registry_witness :
    (StorageServer.acquire_lock [⟨"file", 0, "alice"⟩] "file" 0 "bob"
      = (false, [⟨"file", 0, "alice"⟩])) ∧
    (StorageServer.acquire_lock [⟨"file", 0, "alice"⟩] "file" 0 "alice"
      = (true, [⟨"file", 0, "alice"⟩])) ∧
    (StorageServer.acquire_lock
      (StorageServer.release_lock [⟨"file", 0, "alice"⟩] "file" 0 "alice")
      "file" 0 "bob").1 = true := by
  have hbob := sentence_lock_registry [⟨"file", 0, "alice"⟩] "file" 0 "bob" "alice"
    (by constructor <;> simp) (by decide)
  have halice := sentence_lock_registry [⟨"file", 0, "alice"⟩] "file" 0 "alice" "bob"
    (by constructor <;> simp) (by decide)
  refine ⟨?_, ?_, ?_⟩
  · exact hbob.1 ⟨"file", 0, "alice"⟩ (by rfl) (by decide)
  · exact halice.2.1 (by rfl)
  · exact halice.2.2.2.2.2 (by rfl)

/-! ## Storage server: WRITE session engine (src/storage_server/storage_server.c,
`client_connection_thread`) -/

namespace StorageServer

/-- `WriteSession`: the per-connection state held while `SESSION_OPEN`
(`session_filename`, `session_sentence`, `session_user`, `file_buffer`). -/
structure WriteSession where
  filename : String
  sentence : Int
  user : String
  buffer : String
  deriving DecidableEq, Repr

/-- The on-disk state of the session's file: the original path and its
one-generation `.bak` sidecar. -/
structure Disk where
  main : Option String
  bak : Option String
  deriving DecidableEq, Repr

/-- Exogenous filesystem outcome injected into the ETIRW finalize: which of
the `rename` / `fopen` / `fwrite` calls fails, if any. -/
inductive EtirwFsOutcome
  | renameBackupFail
  | openForWriteFail
  | shortWrite
  | ok
  deriving DecidableEq, Repr

/-- Result of the ETIRW handler: response status, lock registry, per-connection
session state, and the file's disk state. -/
structure EtirwResult where
  status : Nat
  locks : List SentenceLock
  session : Option WriteSession
  disk : Disk
  deriving Repr

/-- Embeds the `CMD_ETIRW` case of `client_connection_thread`.  With no open
session, report an internal error.  Otherwise: rename the file to its `.bak`
(on failure: report internal error and `break` — the lock is not touched);
open and write the buffer to the original path (on `fopen` failure or a short
write: rename the backup back over the original, report internal error,
`break` — again without touching the lock); on success, release the sentence
lock, discard the buffer, and report OK. -/
def handle_etirw (locks : List SentenceLock) (sess : Option WriteSession)
    (disk : Disk) (fs : EtirwFsOutcome) : EtirwResult :=
  match sess with
  | none => ⟨STATUS_ERROR_INTERNAL, locks, none, disk⟩
  | some s =>
    match fs with
    | .renameBackupFail =>
        ⟨STATUS_ERROR_INTERNAL, locks, some s, disk⟩
    | .openForWriteFail =>
        ⟨STATUS_ERROR_INTERNAL, locks, some s, ⟨disk.main, none⟩⟩
    | .shortWrite =>
        ⟨STATUS_ERROR_INTERNAL, locks, some s, ⟨disk.main, none⟩⟩
    | .ok =>
        ⟨STATUS_OK, release_lock locks s.filename s.sentence s.user, none,
          ⟨some s.buffer, disk.main⟩⟩

/-- Embeds the word-update branch of the `CMD_WRITE` case (args parsed as
"word-index word"): with no open session, an internal error; with an open
session the source only acknowledges — the `file_buffer` mutation is an
unimplemented `TODO` in the C code, so the session (buffer included) is
returned unchanged with `STATUS_OK`. -/
def handle_write_word_update (sess : Option WriteSession) (wordIndex : Int)
    (word : String) : Nat × Option WriteSession :=
  match sess with
  | none => (STATUS_ERROR_INTERNAL, none)
  | some s => (STATUS_OK, some s)

end StorageServer

open StorageServer in
/-- C3 counterexample: an open WRITE session by alice on ("a.txt", 0) whose
ETIRW buffer write is short: the handler reports an internal error but the
sentence lock is left in the registry (still held by alice), refuting the
claim that the lock is released on this failure path. -/
theorem etirw_failure_lock_kept_cex :
    (handle_etirw [⟨"a.txt", 0, "alice"⟩]
      (some ⟨"a.txt", 0, "alice", "new text."⟩)
      ⟨some "old text.", none⟩ .shortWrite).status = STATUS_ERROR_INTERNAL ∧
    (handle_etirw [⟨"a.txt", 0, "alice"⟩]
      (some ⟨"a.txt", 0, "alice", "new text."⟩)
      ⟨some "old text.", none⟩ .shortWrite).locks = [⟨"a.txt", 0, "alice"⟩] ∧
    lockFor (handle_etirw [⟨"a.txt", 0, "alice"⟩]
      (some ⟨"a.txt", 0, "alice", "new text."⟩)
      ⟨some "old text.", none⟩ .shortWrite).locks "a.txt" 0
      = some ⟨"a.txt", 0, "alice"⟩ := by
  refine ⟨rfl, rfl, ?_⟩
  simp [handle_etirw, lockFor, List.find?]

open StorageServer in
/-- C3 amended: for every ETIRW finalize of an open WRITE session in which the
backup rename, the open-for-write, or the buffer write fails, the storage
server reports an internal error; where a backup had been made it restores by
renaming the backup back over the original path (the original content is
preserved in all failure cases); but the session's sentence lock is NOT
released on these failure paths — the registry is returned unchanged and the
session stays open.  The lock is released only on successful finalize. -/
theorem etirw_failure_behaviour (locks : List SentenceLock) (s : WriteSession)
    (disk : Disk) (fs : EtirwFsOutcome) (hfail : fs ≠ .ok) :
    (handle_etirw locks (some s) disk fs).status = STATUS_ERROR_INTERNAL ∧
    (handle_etirw locks (some s) disk fs).locks = locks ∧
    (handle_etirw locks (some s) disk fs).session = some s ∧
    (handle_etirw locks (some s) disk fs).disk.main = disk.main ∧
    (handle_etirw locks (some s) disk .ok).locks
      = release_lock locks s.filename s.sentence s.user := by
  cases fs with
  | renameBackupFail => exact ⟨rfl, rfl, rfl, rfl, rfl⟩
  | openForWriteFail => exact ⟨rfl, rfl, rfl, rfl, rfl⟩
  | shortWrite => exact ⟨rfl, rfl, rfl, rfl, rfl⟩
  | ok => exact absurd rfl hfail

open StorageServer in
/-- C3 amended witness: the failure behaviour at a concrete session and a
concrete short-write failure. -/
theorem etirw_failure_behaviour_witness :
    (handle_etirw [⟨"b.txt", 1, "carol"⟩]
      (some ⟨"b.txt", 1, "carol", "draft."⟩)
      ⟨some "final.", some "stale"⟩ .openForWriteFail).status
        = STATUS_ERROR_INTERNAL ∧
    (handle_etirw [⟨"b.txt", 1, "carol"⟩]
      (some ⟨"b.txt", 1, "carol", "draft."⟩)
      ⟨some "final.", some "stale"⟩ .openForWriteFail).locks
        = [⟨"b.txt", 1, "carol"⟩] ∧
    (handle_etirw [⟨"b.txt", 1, "carol"⟩]
      (some ⟨"b.txt", 1, "carol", "draft."⟩)
      ⟨some "final.", some "stale"⟩ .openForWriteFail).session
        = some ⟨"b.txt", 1, "carol", "draft."⟩ ∧
    (handle_etirw [⟨"b.txt", 1, "carol"⟩]
      (some ⟨"b.txt", 1, "carol", "draft."⟩)
      ⟨some "final.", some "stale"⟩ .openForWriteFail).disk.main
        = some "final." ∧
    (handle_etirw [⟨"b.txt", 1, "carol"⟩]
      (some ⟨"b.txt", 1, "carol", "draft."⟩)
      ⟨some "final.", some "stale"⟩ .ok).locks
        = StorageServer.release_lock [⟨"b.txt", 1, "carol"⟩] "b.txt" 1 "carol" :=
  etirw_failure_behaviour [⟨"b.txt", 1, "carol"⟩] ⟨"b.txt", 1, "carol", "draft."⟩
    ⟨some "final.", some "stale"⟩ .openForWriteFail (by decide)

open StorageServer in
/-- C4: the code diverges from the claim — a word-update message on an open
WRITE session is acknowledged with `STATUS_OK` ("Word 0 updated") but the
in-memory file buffer is NOT mutated (the replacement is a `TODO` stub in the
source): at word-index 0 with replacement "goodbye", the session buffer still
reads "hello world." after the handler. -/
theorem write_word_update_stub_eval :
    handle_write_word_update (some ⟨"a.txt", 0, "alice", "hello world."⟩) 0 "goodbye"
      = (STATUS_OK, some ⟨"a.txt", 0, "alice", "hello world."⟩) := rfl

/-! ## Name server: directory, LRU cache and handlers
(src/name_server/nm_state.c, src/name_server/name_server.c,
src/common/common.c) -/

namespace NameServer

/-- `MAX_FILENAME_LEN`. -/
def MAX_FILENAME_LEN : Nat := 256
/-- `MAX_CLIENTS` (capacity of the fixed ACL arrays). -/
def MAX_CLIENTS : Nat := 100
/-- `HASH_TABLE_SIZE`. -/
def HASH_TABLE_SIZE : Nat := 1024
/-- `LRU_CACHE_CAPACITY`. -/
def LRU_CACHE_CAPACITY : Nat := 10

/-- ASCII upper-casing of one character code, for `strcasecmp`. -/
def foldUpper (n : Nat) : Nat := if 97 ≤ n ∧ n ≤ 122 then n - 32 else n

/-- `strcasecmp(a, b) == 0`: equality after ASCII case folding. -/
def eqCaseInsensitive (a b : String) : Bool :=
  a.data.map (fun c => foldUpper c.toNat) == b.data.map (fun c => foldUpper c.toNat)

/-- Embeds `validate_filename` (src/common/common.c): non-empty, shorter than
`MAX_FILENAME_LEN`, none of the characters of `"<>:\"|?*"`, and not a
reserved name (case-insensitive). -/
def validate_filename (fn : String) : Bool :=
  if fn.length = 0 || MAX_FILENAME_LEN ≤ fn.length then false
  else if "<>:\"|?*".data.any (fun c => fn.data.contains c) then false
  else if [".", "..", "CON", "PRN", "AUX", "NUL"].any
      (fun r => eqCaseInsensitive fn r) then false
  else true

/-- Embeds `hash_filename`: the djb2 33-multiplier rolling hash over the
filename bytes in `unsigned int` arithmetic, reduced mod the bucket count. -/
def hash_filename (fn : String) : Nat :=
  ((fn.data.map Char.toNat).foldl
    (fun h c => (h * 33 + c) % 4294967296) 5381) % HASH_TABLE_SIZE

/-- `file_metadata_t` (fields the NM handlers touch; `time_t` as `Nat`).  The
parallel arrays `access_list` / `access_permissions` with `access_count` are
one ordered sequence of (username, permission-bits) pairs. -/
structure FileMetadata where
  filename : String
  owner : String
  created : Nat
  last_modified : Nat
  last_accessed : Nat
  last_accessed_by : String
  size : Nat
  word_count : Nat
  char_count : Nat
  acl : List (String × Nat)
  deriving DecidableEq, Repr

/-- `file_hash_entry_t` (chain pointer dropped: chains are lists). -/
structure FileHashEntry where
  filename : String
  ss_socket_fd : Int
  metadata : FileMetadata
  deriving DecidableEq, Repr

/-- `file_hash_table_t`: the bucket array as a function from bucket index to
chain, plus the `total_files` counter. -/
structure FileHashTable where
  buckets : Nat → List FileHashEntry
  total_files : Nat

/-- `init_file_hash_table`. -/
def init_file_hash_table : FileHashTable := ⟨fun _ => [], 0⟩

/-- The chain walk `while (current) if (strcmp(current->filename, fn) == 0)`. -/
def findInChain (chain : List FileHashEntry) (fn : String) : Option FileHashEntry :=
  chain.find? (fun e => e.filename == fn)

/-- Plain hash-table lookup (the non-cache part of `find_file_in_table`). -/
def tableLookup (t : FileHashTable) (fn : String) : Option FileHashEntry :=
  findInChain (t.buckets (hash_filename fn)) fn

/-- Mutation of the first list element satisfying `p` (a write through the
pointer returned by a C scan loop). -/
def updateFirstBy {α : Type} (p : α → Bool) (f : α → α) : List α → List α
  | [] => []
  | a :: as => if p a then f a :: as else a :: updateFirstBy p f as

/-- Embeds `add_file_to_table`: if the filename is already present in its
bucket chain, overwrite that entry's socket fd and metadata in place (C
returns 1); otherwise prepend a fresh entry to the chain and increment
`total_files` (C returns 0).  The C `-1` malloc-failure return is not
modelled. -/
def add_file_to_table (t : FileHashTable) (fn : String) (fd : Int)
    (md : FileMetadata) : FileHashTable × Int :=
  let idx := hash_filename fn
  let chain := t.buckets idx
  if (findInChain chain fn).isSome then
    let newChain := updateFirstBy (fun e => e.filename == fn)
      (fun e => { e with ss_socket_fd := fd, metadata := md }) chain
    ({ t with buckets := fun i => if i = idx then newChain else t.buckets i }, 1)
  else
    ({ buckets := fun i => if i = idx then ⟨fn, fd, md⟩ :: chain else t.buckets i,
       total_files := t.total_files + 1 }, 0)

/-- Embeds `remove_file_from_table`: unlink the first matching chain entry and
decrement `total_files` (returns 0); report -1 when absent. -/
def remove_file_from_table (t : FileHashTable) (fn : String) :
    FileHashTable × Int :=
  let idx := hash_filename fn
  let chain := t.buckets idx
  if (findInChain chain fn).isSome then
    let newChain := chain.eraseP (fun e => e.filename == fn)
    ({ buckets := fun i => if i = idx then newChain else t.buckets i,
       total_files := t.total_files - 1 }, 0)
  else (t, -1)

/-- In-place metadata overwrite through the entry pointer returned by
`find_file_in_table` (how `handle_addaccess` / `handle_remaccess` mutate and
roll back the ACL). -/
def updateMetadata (t : FileHashTable) (fn : String) (md : FileMetadata) :
    FileHashTable :=
  let idx := hash_filename fn
  let newChain := updateFirstBy (fun e => e.filename == fn)
    (fun e => { e with metadata := md }) (t.buckets idx)
  { t with buckets := fun i => if i = idx then newChain else t.buckets i }

/-- The NM directory state: the hash table plus the global LRU cache.  An
`lru_node_t` holds a filename and a pointer into the FileRecord table; the
pointer is modelled by the filename key (dereferencing = table lookup by that
name), which agrees with the C behaviour on every state satisfying the
no-dangling invariant of C9. -/
structure NMState where
  table : FileHashTable
  cache : List String

/-- Embeds `lru_get`: scan the cache (MRU first); on hit move the node to the
front and return the entry its pointer refers to; on miss leave the cache
unchanged. -/
def lru_get (s : NMState) (fn : String) : Option FileHashEntry × List String :=
  if s.cache.contains fn then (tableLookup s.table fn, fn :: s.cache.erase fn)
  else (none, s.cache)

/-- Embeds `lru_put`: if the filename is already cached, refresh and move to
front; otherwise drop the least-recently-used tail node when at capacity and
push a new node to the front. -/
def lru_put (cache : List String) (fn : String) : List String :=
  if cache.contains fn then fn :: cache.erase fn
  else fn ::
    (if LRU_CACHE_CAPACITY ≤ cache.length then cache.dropLast else cache)

/-- Embeds `find_file_in_table` with the Phase-6 LRU cache in front: cache
hit → promote to MRU and return; miss → hash-table lookup, inserting into the
cache on success; total miss → not found. -/
def find_file_in_table (s : NMState) (fn : String) :
    Option FileHashEntry × NMState :=
  match lru_get s fn with
  | (some e, cache2) => (some e, { s with cache := cache2 })
  | (none, _) =>
    match tableLookup s.table fn with
    | some e => (some e, { s with cache := lru_put s.cache fn })
    | none => (none, s)

/-- Embeds `remove_file_from_lru_cache`: remove the first cache node whose
filename matches (a no-op when absent). -/
def remove_file_from_lru_cache (cache : List String) (fn : String) :
    List String := cache.erase fn

/-- The metadata built by `handle_create_file` step 6 (lines 770-786): owner
set to the requester, zero stats, and — notably — the owner is put into the
access list with `ACCESS_BOTH` (`access_count = 1`). -/
def create_metadata (fn user : String) (now : Nat) : FileMetadata :=
  { filename := fn, owner := user, created := now, last_modified := now,
    last_accessed := now, last_accessed_by := user, size := 0,
    word_count := 0, char_count := 0, acl := [(user, ACCESS_BOTH)] }

/-- The outcome of one synchronous NM→SS exchange (`send_packet` followed by
`recv_packet`): the send fails, no (or a broken) response arrives, or a
response with some status and data comes back. -/
inductive SSExchange
  | sendFail
  | noResponse
  | reply (st : Nat) (data : String)
  deriving DecidableEq, Repr

/-- The persist-to-storage step failed: transport error on either direction,
or an SS reply with a non-OK status. -/
def persistFails : SSExchange → Prop
  | .sendFail => True
  | .noResponse => True
  | .reply st _ => st ≠ STATUS_OK

/-- Embeds `handle_create_file`: validate the filename, reject if present,
require a storage node (round-robin selection modelled by the `ssSel`
argument), forward CREATE and block (`ex`); only on an OK reply insert the
FileRecord.  The returned `Bool` records whether a request was forwarded to a
storage node. -/
def handle_create_file (s : NMState) (user fn : String) (now : Nat)
    (ssSel : Option Int) (ex : SSExchange) : Nat × NMState × Bool :=
  if ¬ validate_filename fn then (STATUS_ERROR_INVALID_FILENAME, s, false)
  else
    match find_file_in_table s fn with
    | (some _, s1) => (STATUS_ERROR_FILE_EXISTS, s1, false)
    | (none, s1) =>
      match ssSel with
      | none => (STATUS_ERROR_SERVER_UNAVAILABLE, s1, false)
      | some fd =>
        match ex with
        | .sendFail => (STATUS_ERROR_NETWORK, s1, true)
        | .noResponse => (STATUS_ERROR_NETWORK, s1, true)
        | .reply st _ =>
          if st ≠ STATUS_OK then (st, s1, true)
          else
            (STATUS_OK,
             { s1 with table := (add_file_to_table s1.table fn fd
                 (create_metadata fn user now)).1 }, true)

/-- Embeds `handle_delete_file`: find the file (NOT_FOUND if absent), require
the owning storage node's connection (`ssAvailable`), forward DELETE and
block; on an OK reply purge the LRU cache entry first and then remove the
record from the table; on any failure leave the directory untouched. -/
def handle_delete_file (s : NMState) (user fn : String) (ssAvailable : Bool)
    (ex : SSExchange) : Nat × NMState :=
  match find_file_in_table s fn with
  | (none, s1) => (STATUS_ERROR_NOT_FOUND, s1)
  | (some _, s1) =>
    if ¬ ssAvailable then (STATUS_ERROR_SERVER_UNAVAILABLE, s1)
    else
      match ex with
      | .sendFail => (STATUS_ERROR_NETWORK, s1)
      | .noResponse => (STATUS_ERROR_NETWORK, s1)
      | .reply st _ =>
        if st ≠ STATUS_OK then (st, s1)
        else
          (STATUS_OK,
           ⟨(remove_file_from_table s1.table fn).1,
            remove_file_from_lru_cache s1.cache fn⟩)

/-- The ACL mutation of `handle_addaccess`: find-or-create the target's entry
and OR in the requested bits ("-W" implies read); `none` when a new entry is
needed but the list is at `MAX_CLIENTS` capacity (C answers
`STATUS_ERROR_INTERNAL` there). -/
def aclMutateAdd (acl : List (String × Nat)) (target flag : String) :
    Option (List (String × Nat)) :=
  if (acl.find? (fun p => p.1 == target)).isSome then
    some (updateFirstBy (fun p => p.1 == target)
      (fun p => (p.1, if flag == "-R" then p.2 ||| ACCESS_READ
                      else p.2 ||| ACCESS_WRITE ||| ACCESS_READ)) acl)
  else if MAX_CLIENTS ≤ acl.length then none
  else some (acl ++ [(target, if flag == "-R" then ACCESS_READ else ACCESS_BOTH)])

/-- Embeds `handle_addaccess`: parse/validate the flag, find the file, require
ownership, snapshot the metadata, apply the ACL mutation in memory, send
UPDATE_ACL to the owning SS and block; on transport failure or a non-OK reply
restore the snapshot; only on an OK reply keep the mutation and answer OK. -/
def handle_addaccess (s : NMState) (user flag fn target : String)
    (ex : SSExchange) : Nat × NMState :=
  if ¬ (flag = "-R" ∨ flag = "-W") then (STATUS_ERROR_INVALID_ARGS, s)
  else
    match find_file_in_table s fn with
    | (none, s1) => (STATUS_ERROR_NOT_FOUND, s1)
    | (some entry, s1) =>
      if entry.metadata.owner ≠ user then (STATUS_ERROR_OWNER_REQUIRED, s1)
      else
        let oldMeta := entry.metadata
        match aclMutateAdd oldMeta.acl target flag with
        | none => (STATUS_ERROR_INTERNAL, s1)
        | some newAcl =>
          let s2 : NMState :=
            { s1 with table := updateMetadata s1.table fn { oldMeta with acl := newAcl } }
          match ex with
          | .sendFail =>
              (STATUS_ERROR_NETWORK,
               { s2 with table := updateMetadata s2.table fn oldMeta })
          | .noResponse =>
              (STATUS_ERROR_NETWORK,
               { s2 with table := updateMetadata s2.table fn oldMeta })
          | .reply st _ =>
            if st ≠ STATUS_OK then
              (st, { s2 with table := updateMetadata s2.table fn oldMeta })
            else (STATUS_OK, s2)

/-- Embeds `handle_remaccess`: find the file, require ownership, reject
owner-self-removal outright, snapshot the metadata, remove the target's ACL
entry (NOT_FOUND when absent), persist to the owning SS; on transport failure
or a non-OK reply restore the snapshot. -/
def handle_remaccess (s : NMState) (user fn target : String)
    (ex : SSExchange) : Nat × NMState :=
  match find_file_in_table s fn with
  | (none, s1) => (STATUS_ERROR_NOT_FOUND, s1)
  | (some entry, s1) =>
    if entry.metadata.owner ≠ user then (STATUS_ERROR_OWNER_REQUIRED, s1)
    else if target = user then (STATUS_ERROR_INVALID_OPERATION, s1)
    else
      let oldMeta := entry.metadata
      if (oldMeta.acl.find? (fun p => p.1 == target)).isSome then
        let newMeta : FileMetadata :=
          { oldMeta with acl := oldMeta.acl.eraseP (fun p => p.1 == target) }
        let s2 : NMState := { s1 with table := updateMetadata s1.table fn newMeta }
        match ex with
        | .sendFail =>
            (STATUS_ERROR_NETWORK,
             { s2 with table := updateMetadata s2.table fn oldMeta })
        | .noResponse =>
            (STATUS_ERROR_NETWORK,
             { s2 with table := updateMetadata s2.table fn oldMeta })
        | .reply st _ =>
          if st ≠ STATUS_OK then
            (st, { s2 with table := updateMetadata s2.table fn oldMeta })
          else (STATUS_OK, s2)
      else (STATUS_ERROR_NOT_FOUND, s1)

/-- One NM request, as dispatched by the event loop to the handlers above. -/
inductive NMOp
  | find (fn : String)
  | create (user fn : String) (now : Nat) (ssSel : Option Int) (ex : SSExchange)
  | delete (user fn : String) (ssAvailable : Bool) (ex : SSExchange)
  | addaccess (user flag fn target : String) (ex : SSExchange)
  | remaccess (user fn target : String) (ex : SSExchange)

/-- Directory-state effect of one NM request. -/
def applyOp (s : NMState) : NMOp → NMState
  | .find fn => (find_file_in_table s fn).2
  | .create u fn now sel ex => (handle_create_file s u fn now sel ex).2.1
  | .delete u fn av ex => (handle_delete_file s u fn av ex).2
  | .addaccess u fl fn t ex => (handle_addaccess s u fl fn t ex).2
  | .remaccess u fn t ex => (handle_remaccess s u fn t ex).2

/-- Directory states reachable from startup (empty table, empty cache) by any
sequence of NM requests; the NM event loop is single-threaded, so requests
apply one at a time. -/
inductive Reachable : NMState → Prop
  | init : Reachable ⟨init_file_hash_table, []⟩
  | step {s : NMState} (h : Reachable s) (op : NMOp) : Reachable (applyOp s op)

/-- No dangling cache reference: every cache node's filename is present in the
FileRecord table. -/
def NoDangling (s : NMState) : Prop :=
  ∀ fn ∈ s.cache, (tableLookup s.table fn).isSome

/-- Well-formed table: within each bucket chain, filenames are unique. -/
def TableWF (t : FileHashTable) : Prop :=
  ∀ i, ((t.buckets i).map (·.filename)).Nodup

/-- The combined directory invariant the reachability proof maintains. -/
def Inv (s : NMState) : Prop :=
  s.cache.Nodup ∧ NoDangling s ∧ TableWF s.table

theorem find?_updateFirstBy_self {α : Type} (p : α → Bool) (f : α → α)
    (l : List α) (hf : ∀ x, p (f x) = p x) :
    (updateFirstBy p f l).find? p = (l.find? p).map f := by
  induction l with
  | nil => rfl
  | cons a l ih =>
    by_cases hp : p a
    · rw [updateFirstBy, if_pos hp, List.find?_cons_of_pos _ (by rw [hf]; exact hp),
        List.find?_cons_of_pos _ hp]
      rfl
    · rw [updateFirstBy, if_neg hp, List.find?_cons_of_neg _ (by simpa using hp),
        List.find?_cons_of_neg _ (by simpa using hp)]
      exact ih

theorem find?_updateFirstBy_disjoint {α : Type} (p q : α → Bool) (f : α → α)
    (l : List α) (hpq : ∀ x, p x = true → q x = false) (hf : ∀ x, q (f x) = q x) :
    (updateFirstBy p f l).find? q = l.find? q := by
  induction l with
  | nil => rfl
  | cons a l ih =>
    by_cases hp : p a
    · rw [updateFirstBy, if_pos hp,
        List.find?_cons_of_neg _ (by simp [hf, hpq a hp]),
        List.find?_cons_of_neg _ (by simp [hpq a hp])]
    · rw [updateFirstBy, if_neg hp]
      by_cases hq : q a
      · rw [List.find?_cons_of_pos _ hq, List.find?_cons_of_pos _ hq]
      · rw [List.find?_cons_of_neg _ (by simpa using hq),
          List.find?_cons_of_neg _ (by simpa using hq)]
        exact ih

theorem map_updateFirstBy {α β : Type} (p : α → Bool) (f : α → α) (g : α → β)
    (l : List α) (hg : ∀ x, g (f x) = g x) :
    (updateFirstBy p f l).map g = l.map g := by
  induction l with
  | nil => rfl
  | cons a l ih =>
    by_cases hp : p a
    · rw [updateFirstBy, if_pos hp, List.map_cons, List.map_cons, hg]
    · rw [updateFirstBy, if_neg hp, List.map_cons, List.map_cons, ih]

theorem findInChain_isSome_iff (chain : List FileHashEntry) (fn : String) :
    (findInChain chain fn).isSome = true ↔ fn ∈ chain.map (·.filename) := by
  rw [findInChain, List.find?_isSome, List.mem_map]
  constructor
  · rintro ⟨e, he, pe⟩
    exact ⟨e, he, beq_iff_eq.mp pe⟩
  · rintro ⟨e, he, pe⟩
    exact ⟨e, he, beq_iff_eq.mpr pe⟩

theorem findInChain_eraseP_self (chain : List FileHashEntry) (fn : String)
    (h : (chain.map (·.filename)).Nodup) :
    findInChain (chain.eraseP (fun e => e.filename == fn)) fn = none := by
  induction chain with
  | nil => rfl
  | cons a l ih =>
    rw [List.map_cons, List.nodup_cons] at h
    by_cases hp : (a.filename == fn) = true
    · rw [List.eraseP_cons_of_pos
        (p := fun e : FileHashEntry => e.filename == fn) hp,
        findInChain, List.find?_eq_none]
      intro x hx hpx
      exact h.1 (List.mem_map.mpr ⟨x, hx,
        (beq_iff_eq.mp hpx).trans (beq_iff_eq.mp hp).symm⟩)
    · rw [List.eraseP_cons_of_neg
        (p := fun e : FileHashEntry => e.filename == fn) (by simpa using hp),
        findInChain,
        List.find?_cons_of_neg _ (by simpa using hp)]
      exact ih h.2
theorem tableLookup_updateMetadata_self (t : FileHashTable) (fn : String)
    (md : FileMetadata) :
    tableLookup (updateMetadata t fn md) fn
      = (tableLookup t fn).map (fun e => { e with metadata := md }) := by
  have hb : (updateMetadata t fn md).buckets (hash_filename fn)
      = updateFirstBy (fun e => e.filename == fn)
          (fun e => { e with metadata := md }) (t.buckets (hash_filename fn)) := by
    simp [updateMetadata]
  rw [show tableLookup (updateMetadata t fn md) fn
      = findInChain ((updateMetadata t fn md).buckets (hash_filename fn)) fn from rfl,
    hb]
  exact find?_updateFirstBy_self _ _ _ (fun x => rfl)

theorem tableLookup_updateMetadata_ne (t : FileHashTable) (fn : String)
    (md : FileMetadata) (fn' : String) (h : fn' ≠ fn) :
    tableLookup (updateMetadata t fn md) fn' = tableLookup t fn' := by
  rw [show tableLookup (updateMetadata t fn md) fn'
      = findInChain ((updateMetadata t fn md).buckets (hash_filename fn')) fn' from rfl]
  by_cases hh : hash_filename fn' = hash_filename fn
  · have hb : (updateMetadata t fn md).buckets (hash_filename fn')
        = updateFirstBy (fun e => e.filename == fn)
            (fun e => { e with metadata := md }) (t.buckets (hash_filename fn')) := by
      simp [updateMetadata, hh]
    rw [hb]
    exact find?_updateFirstBy_disjoint _ _ _ _
      (fun x hx => beq_eq_false_iff_ne.mpr
        (fun hcon => h (hcon.symm.trans (beq_iff_eq.mp hx))))
      (fun x => rfl)
  · have hb : (updateMetadata t fn md).buckets (hash_filename fn')
        = t.buckets (hash_filename fn') := by
      simp [updateMetadata, hh]
    rw [hb]
    rfl

theorem tableLookup_add_self (t : FileHashTable) (fn : String) (fd : Int)
    (md : FileMetadata) :
    tableLookup (add_file_to_table t fn fd md).1 fn = some ⟨fn, fd, md⟩ := by
  rw [show tableLookup (add_file_to_table t fn fd md).1 fn
      = findInChain ((add_file_to_table t fn fd md).1.buckets (hash_filename fn)) fn
      from rfl]
  by_cases hex : (findInChain (t.buckets (hash_filename fn)) fn).isSome = true
  · have hb : (add_file_to_table t fn fd md).1.buckets (hash_filename fn)
        = updateFirstBy (fun e => e.filename == fn)
            (fun e => { e with ss_socket_fd := fd, metadata := md })
            (t.buckets (hash_filename fn)) := by
      simp [add_file_to_table, hex]
    rw [hb, findInChain, find?_updateFirstBy_self (fun e : FileHashEntry => e.filename == fn)
      (fun e => { e with ss_socket_fd := fd, metadata := md })
      (t.buckets (hash_filename fn)) (fun x => rfl)]
    obtain ⟨e, he⟩ := Option.isSome_iff_exists.mp hex
    rw [findInChain] at he
    rw [he]
    have hp := List.find?_some (p := fun x : FileHashEntry => x.filename == fn) he
    have hfne : e.filename = fn := beq_iff_eq.mp hp
    rw [Option.map_some']
    rw [show ({ e with ss_socket_fd := fd, metadata := md } : FileHashEntry)
        = ⟨e.filename, fd, md⟩ from rfl, hfne]
  · have hb : (add_file_to_table t fn fd md).1.buckets (hash_filename fn)
        = ⟨fn, fd, md⟩ :: t.buckets (hash_filename fn) := by
      simp [add_file_to_table, hex]
    rw [hb, findInChain, List.find?_cons_of_pos _ (by simp)]

theorem tableLookup_add_ne (t : FileHashTable) (fn : String) (fd : Int)
    (md : FileMetadata) (fn' : String) (h : fn' ≠ fn) :
    tableLookup (add_file_to_table t fn fd md).1 fn' = tableLookup t fn' := by
  rw [show tableLookup (add_file_to_table t fn fd md).1 fn'
      = findInChain ((add_file_to_table t fn fd md).1.buckets (hash_filename fn')) fn'
      from rfl]
  by_cases hex : (findInChain (t.buckets (hash_filename fn)) fn).isSome = true
  · by_cases hh : hash_filename fn' = hash_filename fn
    · have hb : (add_file_to_table t fn fd md).1.buckets (hash_filename fn')
          = updateFirstBy (fun e => e.filename == fn)
              (fun e => { e with ss_socket_fd := fd, metadata := md })
              (t.buckets (hash_filename fn')) := by
        simp [add_file_to_table, hex, hh]
      rw [hb]
      exact find?_updateFirstBy_disjoint _ _ _ _
        (fun x hx => beq_eq_false_iff_ne.mpr
          (fun hcon => h (hcon.symm.trans (beq_iff_eq.mp hx))))
        (fun x => rfl)
    · have hb : (add_file_to_table t fn fd md).1.buckets (hash_filename fn')
          = t.buckets (hash_filename fn') := by
        simp [add_file_to_table, hex, hh]
      rw [hb]
      rfl
  · by_cases hh : hash_filename fn' = hash_filename fn
    · have hb : (add_file_to_table t fn fd md).1.buckets (hash_filename fn')
          = ⟨fn, fd, md⟩ :: t.buckets (hash_filename fn') := by
        simp [add_file_to_table, hex, hh]
      rw [hb, findInChain, List.find?_cons_of_neg _
        (by simp only [beq_iff_eq]; exact fun hc => h hc.symm)]
      rfl
    · have hb : (add_file_to_table t fn fd md).1.buckets (hash_filename fn')
          = t.buckets (hash_filename fn') := by
        simp [add_file_to_table, hex, hh]
      rw [hb]
      rfl

theorem tableLookup_remove_ne (t : FileHashTable) (fn fn' : String) (h : fn' ≠ fn) :
    tableLookup (remove_file_from_table t fn).1 fn' = tableLookup t fn' := by
  rw [show tableLookup (remove_file_from_table t fn).1 fn'
      = findInChain ((remove_file_from_table t fn).1.buckets (hash_filename fn')) fn'
      from rfl]
  by_cases hex : (findInChain (t.buckets (hash_filename fn)) fn).isSome = true
  · by_cases hh : hash_filename fn' = hash_filename fn
    · have hb : (remove_file_from_table t fn).1.buckets (hash_filename fn')
          = (t.buckets (hash_filename fn')).eraseP (fun e => e.filename == fn) := by
        simp [remove_file_from_table, hex, hh]
      rw [hb]
      exact StorageServer.find?_eraseP_of_disjoint _ _ _
        (fun x hx => beq_eq_false_iff_ne.mpr
          (fun hcon => h (hcon.symm.trans (beq_iff_eq.mp hx))))
    · have hb : (remove_file_from_table t fn).1.buckets (hash_filename fn')
          = t.buckets (hash_filename fn') := by
        simp [remove_file_from_table, hex, hh]
      rw [hb]
      rfl
  · have hb : (remove_file_from_table t fn).1.buckets (hash_filename fn')
        = t.buckets (hash_filename fn') := by
      simp [remove_file_from_table, hex]
    rw [hb]
    rfl

theorem tableLookup_remove_self (t : FileHashTable) (fn : String)
    (hwf : TableWF t) :
    tableLookup (remove_file_from_table t fn).1 fn = none := by
  rw [show tableLookup (remove_file_from_table t fn).1 fn
      = findInChain ((remove_file_from_table t fn).1.buckets (hash_filename fn)) fn
      from rfl]
  by_cases hex : (findInChain (t.buckets (hash_filename fn)) fn).isSome = true
  · have hb : (remove_file_from_table t fn).1.buckets (hash_filename fn)
        = (t.buckets (hash_filename fn)).eraseP (fun e => e.filename == fn) := by
      simp [remove_file_from_table, hex]
    rw [hb]
    exact findInChain_eraseP_self _ _ (hwf _)
  · have hb : (remove_file_from_table t fn).1.buckets (hash_filename fn)
        = t.buckets (hash_filename fn) := by
      simp [remove_file_from_table, hex]
    rw [hb]
    cases hv : findInChain (t.buckets (hash_filename fn)) fn with
    | none => rfl
    | some e => rw [hv] at hex; simp at hex

theorem contains_of_mem {l : List String} {a : String} (h : a ∈ l) :
    l.contains a = true := List.elem_iff.mpr h

theorem not_contains_of_not_mem {l : List String} {a : String} (h : a ∉ l) :
    ¬ l.contains a = true := fun hc => h (List.elem_iff.mp hc)

theorem find_file_hit_some (s : NMState) (fn : String) (e : FileHashEntry)
    (hm : fn ∈ s.cache) (htl : tableLookup s.table fn = some e) :
    find_file_in_table s fn
      = (some e, { s with cache := fn :: s.cache.erase fn }) := by
  rw [find_file_in_table, lru_get, if_pos (contains_of_mem hm), htl]

theorem find_file_hit_none (s : NMState) (fn : String)
    (hm : fn ∈ s.cache) (htl : tableLookup s.table fn = none) :
    find_file_in_table s fn = (none, s) := by
  rw [find_file_in_table, lru_get, if_pos (contains_of_mem hm), htl]

theorem find_file_miss_some (s : NMState) (fn : String) (e : FileHashEntry)
    (hm : fn ∉ s.cache) (htl : tableLookup s.table fn = some e) :
    find_file_in_table s fn = (some e, { s with cache := lru_put s.cache fn }) := by
  rw [find_file_in_table, lru_get, if_neg (not_contains_of_not_mem hm), htl]

theorem find_file_miss_none (s : NMState) (fn : String)
    (hm : fn ∉ s.cache) (htl : tableLookup s.table fn = none) :
    find_file_in_table s fn = (none, s) := by
  rw [find_file_in_table, lru_get, if_neg (not_contains_of_not_mem hm), htl]
/-- In the model, `find_file_in_table` always answers exactly what the hash
table holds (a cache hit returns the pointed-to table entry). -/
theorem find_file_fst (s : NMState) (fn : String) :
    (find_file_in_table s fn).1 = tableLookup s.table fn := by
  by_cases hm : fn ∈ s.cache <;> cases htl : tableLookup s.table fn
  · rw [find_file_hit_none s fn hm htl]
  · rw [find_file_hit_some s fn _ hm htl]
  · rw [find_file_miss_none s fn hm htl]
  · rw [find_file_miss_some s fn _ hm htl]

/-- `find_file_in_table` never changes the hash table. -/
theorem find_file_table (s : NMState) (fn : String) :
    (find_file_in_table s fn).2.table = s.table := by
  by_cases hm : fn ∈ s.cache <;> cases htl : tableLookup s.table fn
  · rw [find_file_hit_none s fn hm htl]
  · rw [find_file_hit_some s fn _ hm htl]
  · rw [find_file_miss_none s fn hm htl]
  · rw [find_file_miss_some s fn _ hm htl]

theorem mem_find_file_cache {s : NMState} {fn x : String}
    (hx : x ∈ (find_file_in_table s fn).2.cache) : x = fn ∨ x ∈ s.cache := by
  by_cases hm : fn ∈ s.cache <;> cases htl : tableLookup s.table fn
  · rw [find_file_hit_none s fn hm htl] at hx
    exact Or.inr hx
  · rw [find_file_hit_some s fn _ hm htl] at hx
    have hx2 : x ∈ fn :: s.cache.erase fn := hx
    rcases List.mem_cons.mp hx2 with hx3 | hx3
    · exact Or.inl hx3
    · exact Or.inr (List.mem_of_mem_erase hx3)
  · rw [find_file_miss_none s fn hm htl] at hx
    exact Or.inr hx
  · rw [find_file_miss_some s fn _ hm htl] at hx
    have hx2 : x ∈ lru_put s.cache fn := hx
    rw [lru_put, if_neg (not_contains_of_not_mem hm)] at hx2
    rcases List.mem_cons.mp hx2 with hx3 | hx3
    · exact Or.inl hx3
    · by_cases hcap : LRU_CACHE_CAPACITY ≤ s.cache.length
      · rw [if_pos hcap] at hx3
        exact Or.inr (List.mem_of_mem_dropLast hx3)
      · rw [if_neg hcap] at hx3
        exact Or.inr hx3

theorem nodup_find_file_cache {s : NMState} (fn : String)
    (h : s.cache.Nodup) : (find_file_in_table s fn).2.cache.Nodup := by
  by_cases hm : fn ∈ s.cache <;> cases htl : tableLookup s.table fn
  · rw [find_file_hit_none s fn hm htl]
    exact h
  · rw [find_file_hit_some s fn _ hm htl]
    refine List.nodup_cons.mpr ⟨?_, h.erase fn⟩
    intro hmem
    exact ((h.mem_erase_iff).mp hmem).1 rfl
  · rw [find_file_miss_none s fn hm htl]
    exact h
  · rw [find_file_miss_some s fn _ hm htl]
    show (lru_put s.cache fn).Nodup
    rw [lru_put, if_neg (not_contains_of_not_mem hm)]
    by_cases hcap : LRU_CACHE_CAPACITY ≤ s.cache.length
    · rw [if_pos hcap]
      refine List.nodup_cons.mpr ⟨?_, List.Nodup.sublist (List.dropLast_sublist _) h⟩
      exact fun hmem => hm (List.mem_of_mem_dropLast hmem)
    · rw [if_neg hcap]
      exact List.nodup_cons.mpr ⟨hm, h⟩

theorem inv_find (s : NMState) (fn : String) (h : Inv s) :
    Inv (find_file_in_table s fn).2 := by
  obtain ⟨hnd, hdang, hwf⟩ := h
  refine ⟨nodup_find_file_cache fn hnd, ?_, ?_⟩
  · intro x hx
    rw [find_file_table]
    rcases mem_find_file_cache hx with rfl | hx'
    · -- x = fn was put into the cache: either it was already cached (hit) or
      -- the table lookup succeeded (miss-insert)
      by_cases hm : x ∈ s.cache
      · exact hdang _ hm
      · cases htl : tableLookup s.table x with
        | none =>
          rw [find_file_miss_none s x hm htl] at hx
          exact absurd hx hm
        | some e => rfl
    · exact hdang _ hx'
  · rw [find_file_table]
    exact hwf
theorem updateMetadata_buckets (t : FileHashTable) (fn : String)
    (md : FileMetadata) (i : Nat) :
    (updateMetadata t fn md).buckets i
      = if i = hash_filename fn
        then updateFirstBy (fun e => e.filename == fn)
          (fun e => { e with metadata := md }) (t.buckets (hash_filename fn))
        else t.buckets i := rfl

theorem add_buckets_of_found (t : FileHashTable) (fn : String) (fd : Int)
    (md : FileMetadata) (i : Nat)
    (hex : (findInChain (t.buckets (hash_filename fn)) fn).isSome = true) :
    (add_file_to_table t fn fd md).1.buckets i
      = if i = hash_filename fn
        then updateFirstBy (fun e => e.filename == fn)
          (fun e => { e with ss_socket_fd := fd, metadata := md })
          (t.buckets (hash_filename fn))
        else t.buckets i := by
  simp [add_file_to_table, hex]

theorem add_buckets_of_fresh (t : FileHashTable) (fn : String) (fd : Int)
    (md : FileMetadata) (i : Nat)
    (hex : ¬ (findInChain (t.buckets (hash_filename fn)) fn).isSome = true) :
    (add_file_to_table t fn fd md).1.buckets i
      = if i = hash_filename fn
        then ⟨fn, fd, md⟩ :: t.buckets (hash_filename fn)
        else t.buckets i := by
  simp [add_file_to_table, hex]

theorem remove_buckets_of_found (t : FileHashTable) (fn : String) (i : Nat)
    (hex : (findInChain (t.buckets (hash_filename fn)) fn).isSome = true) :
    (remove_file_from_table t fn).1.buckets i
      = if i = hash_filename fn
        then (t.buckets (hash_filename fn)).eraseP (fun e => e.filename == fn)
        else t.buckets i := by
  simp [remove_file_from_table, hex]

theorem remove_of_absent (t : FileHashTable) (fn : String)
    (hex : ¬ (findInChain (t.buckets (hash_filename fn)) fn).isSome = true) :
    (remove_file_from_table t fn).1 = t := by
  simp [remove_file_from_table, hex]

theorem inv_updateMetadata (s : NMState) (fn : String) (md : FileMetadata)
    (h : Inv s) : Inv ⟨updateMetadata s.table fn md, s.cache⟩ := by
  obtain ⟨hnd, hdang, hwf⟩ := h
  refine ⟨hnd, ?_, ?_⟩
  · intro x hx
    by_cases hxfn : x = fn
    · subst hxfn
      rw [show (⟨updateMetadata s.table x md, s.cache⟩ : NMState).table
          = updateMetadata s.table x md from rfl,
        tableLookup_updateMetadata_self]
      have hd := hdang _ hx
      cases htl : tableLookup s.table x with
      | none => rw [htl] at hd; simp at hd
      | some e => rfl
    · rw [show (⟨updateMetadata s.table fn md, s.cache⟩ : NMState).table
          = updateMetadata s.table fn md from rfl,
        tableLookup_updateMetadata_ne _ _ _ _ hxfn]
      exact hdang _ hx
  · intro i
    rw [show (⟨updateMetadata s.table fn md, s.cache⟩ : NMState).table
        = updateMetadata s.table fn md from rfl, updateMetadata_buckets]
    by_cases hi : i = hash_filename fn
    · rw [if_pos hi, map_updateFirstBy (fun e : FileHashEntry => e.filename == fn)
        (fun e => { e with metadata := md }) (fun e => e.filename)
        (s.table.buckets (hash_filename fn)) (fun x => rfl)]
      exact hwf _
    · rw [if_neg hi]
      exact hwf i

theorem inv_add (s : NMState) (fn : String) (fd : Int) (md : FileMetadata)
    (h : Inv s) : Inv ⟨(add_file_to_table s.table fn fd md).1, s.cache⟩ := by
  obtain ⟨hnd, hdang, hwf⟩ := h
  refine ⟨hnd, ?_, ?_⟩
  · intro x hx
    by_cases hxfn : x = fn
    · subst hxfn
      rw [show (⟨(add_file_to_table s.table x fd md).1, s.cache⟩ : NMState).table
          = (add_file_to_table s.table x fd md).1 from rfl, tableLookup_add_self]
      rfl
    · rw [show (⟨(add_file_to_table s.table fn fd md).1, s.cache⟩ : NMState).table
          = (add_file_to_table s.table fn fd md).1 from rfl,
        tableLookup_add_ne _ _ _ _ _ hxfn]
      exact hdang _ hx
  · intro i
    rw [show (⟨(add_file_to_table s.table fn fd md).1, s.cache⟩ : NMState).table
        = (add_file_to_table s.table fn fd md).1 from rfl]
    by_cases hex : (findInChain (s.table.buckets (hash_filename fn)) fn).isSome = true
    · rw [add_buckets_of_found _ _ _ _ _ hex]
      by_cases hi : i = hash_filename fn
      · rw [if_pos hi, map_updateFirstBy (fun e : FileHashEntry => e.filename == fn)
          (fun e => { e with ss_socket_fd := fd, metadata := md })
          (fun e => e.filename) (s.table.buckets (hash_filename fn)) (fun x => rfl)]
        exact hwf _
      · rw [if_neg hi]
        exact hwf i
    · rw [add_buckets_of_fresh _ _ _ _ _ hex]
      by_cases hi : i = hash_filename fn
      · rw [if_pos hi, List.map_cons]
        refine List.nodup_cons.mpr ⟨?_, hwf _⟩
        intro hmem
        exact hex ((findInChain_isSome_iff _ _).mpr hmem)
      · rw [if_neg hi]
        exact hwf i

theorem inv_delete_commit (s : NMState) (fn : String) (h : Inv s) :
    Inv ⟨(remove_file_from_table s.table fn).1,
         remove_file_from_lru_cache s.cache fn⟩ := by
  obtain ⟨hnd, hdang, hwf⟩ := h
  refine ⟨hnd.erase fn, ?_, ?_⟩
  · intro x hx
    have hx2 : x ∈ s.cache.erase fn := hx
    have hx3 := (hnd.mem_erase_iff).mp hx2
    rw [show (⟨(remove_file_from_table s.table fn).1,
        remove_file_from_lru_cache s.cache fn⟩ : NMState).table
        = (remove_file_from_table s.table fn).1 from rfl,
      tableLookup_remove_ne _ _ _ hx3.1]
    exact hdang _ hx3.2
  · intro i
    rw [show (⟨(remove_file_from_table s.table fn).1,
        remove_file_from_lru_cache s.cache fn⟩ : NMState).table
        = (remove_file_from_table s.table fn).1 from rfl]
    by_cases hex : (findInChain (s.table.buckets (hash_filename fn)) fn).isSome = true
    · rw [remove_buckets_of_found _ _ _ hex]
      by_cases hi : i = hash_filename fn
      · rw [if_pos hi]
        exact List.Nodup.sublist (List.Sublist.map _ (List.eraseP_sublist _)) (hwf _)
      · rw [if_neg hi]
        exact hwf i
    · rw [remove_of_absent _ _ hex]
      exact hwf i

theorem inv_applyOp (s : NMState) (op : NMOp) (h : Inv s) : Inv (applyOp s op) := by
  cases op with
  | find fn => exact inv_find s fn h
  | create u fn now sel ex =>
    simp only [applyOp, handle_create_file]
    split
    · exact h
    · split
      next x s1 heq =>
        have h1 : Inv s1 := by have hf := inv_find s fn h; rw [heq] at hf; exact hf
        exact h1
      next s1 heq =>
        have h1 : Inv s1 := by have hf := inv_find s fn h; rw [heq] at hf; exact hf
        split
        · exact h1
        next fd =>
          split
          · exact h1
          · exact h1
          next st d =>
            split
            · exact h1
            · exact inv_add s1 fn fd _ h1
  | delete u fn av ex =>
    simp only [applyOp, handle_delete_file]
    split
    next s1 heq =>
      have h1 : Inv s1 := by have hf := inv_find s fn h; rw [heq] at hf; exact hf
      exact h1
    next x s1 heq =>
      have h1 : Inv s1 := by have hf := inv_find s fn h; rw [heq] at hf; exact hf
      split
      · exact h1
      · split
        · exact h1
        · exact h1
        next st d =>
          split
          · exact h1
          · exact inv_delete_commit s1 fn h1
  | addaccess u fl fn t ex =>
    simp only [applyOp, handle_addaccess]
    split
    · exact h
    · split
      next s1 heq =>
        have h1 : Inv s1 := by have hf := inv_find s fn h; rw [heq] at hf; exact hf
        exact h1
      next entry s1 heq =>
        have h1 : Inv s1 := by have hf := inv_find s fn h; rw [heq] at hf; exact hf
        split
        · exact h1
        · split
          · exact h1
          next newAcl hacl =>
            have h2 := inv_updateMetadata s1 fn
              { entry.metadata with acl := newAcl } h1
            split
            · exact inv_updateMetadata _ fn _ h2
            · exact inv_updateMetadata _ fn _ h2
            next st d =>
              split
              · exact inv_updateMetadata _ fn _ h2
              · exact h2
  | remaccess u fn t ex =>
    simp only [applyOp, handle_remaccess]
    split
    next s1 heq =>
      have h1 : Inv s1 := by have hf := inv_find s fn h; rw [heq] at hf; exact hf
      exact h1
    next entry s1 heq =>
      have h1 : Inv s1 := by have hf := inv_find s fn h; rw [heq] at hf; exact hf
      split
      · exact h1
      · split
        · exact h1
        · split
          · have h2 := inv_updateMetadata s1 fn
              { entry.metadata with
                acl := entry.metadata.acl.eraseP (fun p => p.1 == t) } h1
            split
            · exact inv_updateMetadata _ fn _ h2
            · exact inv_updateMetadata _ fn _ h2
            next st d =>
              split
              · exact inv_updateMetadata _ fn _ h2
              · exact h2
          · exact h1

theorem reachable_inv {s : NMState} (h : Reachable s) : Inv s := by
  induction h with
  | init =>
    refine ⟨List.nodup_nil, ?_, fun i => List.nodup_nil⟩
    intro fn hfn
    exact absurd hfn (List.not_mem_nil fn)
  | step hs op ih => exact inv_applyOp _ op ih

/-- Every run of `handle_addaccess` either succeeds with the storage server
having confirmed the UPDATE_ACL persist, or fails with the file's in-memory
metadata identical to the pre-call value. -/
theorem addaccess_outcome (s : NMState) (user flag fn target : String)
    (ex : SSExchange) (entry : FileHashEntry)
    (hmeta : tableLookup s.table fn = some entry) :
    ((handle_addaccess s user flag fn target ex).1 = STATUS_OK ∧
      ∃ d, ex = .reply STATUS_OK d) ∨
    ((tableLookup (handle_addaccess s user flag fn target ex).2.table fn).map
        (·.metadata) = some entry.metadata ∧
      (handle_addaccess s user flag fn target ex).1 ≠ STATUS_OK) := by
  have hfst := find_file_fst s fn
  rw [hmeta] at hfst
  simp only [handle_addaccess]
  split
  · exact Or.inr ⟨by rw [hmeta]; rfl, by norm_num [STATUS_ERROR_INVALID_ARGS, STATUS_OK]⟩
  · split
    next s1 heq =>
      rw [heq] at hfst
      exact absurd hfst (by simp)
    next e s1 heq =>
      have he : e = entry := by
        rw [heq] at hfst
        simpa using hfst
      have hs1 : s1.table = s.table := by
        have hft := find_file_table s fn
        rw [heq] at hft
        exact hft
      split
      · exact Or.inr ⟨by rw [hs1, hmeta]; rfl,
          by norm_num [STATUS_ERROR_OWNER_REQUIRED, STATUS_OK]⟩
      · split
        · exact Or.inr ⟨by rw [hs1, hmeta]; rfl,
            by norm_num [STATUS_ERROR_INTERNAL, STATUS_OK]⟩
        · have hroll : ∀ md : FileMetadata,
              (tableLookup (updateMetadata (updateMetadata s1.table fn md) fn
                e.metadata) fn).map (·.metadata) = some entry.metadata := by
            intro md
            rw [tableLookup_updateMetadata_self, tableLookup_updateMetadata_self,
              hs1, hmeta, he]
            rfl
          split
          · exact Or.inr ⟨hroll _, by norm_num [STATUS_ERROR_NETWORK, STATUS_OK]⟩
          · exact Or.inr ⟨hroll _, by norm_num [STATUS_ERROR_NETWORK, STATUS_OK]⟩
          next st d =>
            split
            next hst =>
              exact Or.inr ⟨hroll _, hst⟩
            next hst =>
              rw [Classical.not_not] at hst
              exact Or.inl ⟨rfl, d, by rw [hst]⟩

/-- Every run of `handle_remaccess` either succeeds with the storage server
having confirmed the UPDATE_ACL persist, or fails with the file's in-memory
metadata identical to the pre-call value. -/
theorem remaccess_outcome (s : NMState) (user fn target : String)
    (ex : SSExchange) (entry : FileHashEntry)
    (hmeta : tableLookup s.table fn = some entry) :
    ((handle_remaccess s user fn target ex).1 = STATUS_OK ∧
      ∃ d, ex = .reply STATUS_OK d) ∨
    ((tableLookup (handle_remaccess s user fn target ex).2.table fn).map
        (·.metadata) = some entry.metadata ∧
      (handle_remaccess s user fn target ex).1 ≠ STATUS_OK) := by
  have hfst := find_file_fst s fn
  rw [hmeta] at hfst
  simp only [handle_remaccess]
  split
  next s1 heq =>
    rw [heq] at hfst
    exact absurd hfst (by simp)
  next e s1 heq =>
    have he : e = entry := by
      rw [heq] at hfst
      simpa using hfst
    have hs1 : s1.table = s.table := by
      have hft := find_file_table s fn
      rw [heq] at hft
      exact hft
    split
    · exact Or.inr ⟨by rw [hs1, hmeta]; rfl,
        by norm_num [STATUS_ERROR_OWNER_REQUIRED, STATUS_OK]⟩
    · split
      · exact Or.inr ⟨by rw [hs1, hmeta]; rfl,
          by norm_num [STATUS_ERROR_INVALID_OPERATION, STATUS_OK]⟩
      · split
        · have hroll : ∀ md : FileMetadata,
              (tableLookup (updateMetadata (updateMetadata s1.table fn md) fn
                e.metadata) fn).map (·.metadata) = some entry.metadata := by
            intro md
            rw [tableLookup_updateMetadata_self, tableLookup_updateMetadata_self,
              hs1, hmeta, he]
            rfl
          split
          · exact Or.inr ⟨hroll _, by norm_num [STATUS_ERROR_NETWORK, STATUS_OK]⟩
          · exact Or.inr ⟨hroll _, by norm_num [STATUS_ERROR_NETWORK, STATUS_OK]⟩
          next st d =>
            split
            next hst =>
              exact Or.inr ⟨hroll _, hst⟩
            next hst =>
              rw [Classical.not_not] at hst
              exact Or.inl ⟨rfl, d, by rw [hst]⟩
        · exact Or.inr ⟨by rw [hs1, hmeta]; rfl,
            by norm_num [STATUS_ERROR_NOT_FOUND, STATUS_OK]⟩


end NameServer

open NameServer in
/-- C1: for every ADDACCESS or REMACCESS request whose persist-to-storage step
fails (send failure, no/broken response, or a non-OK SS status), the NM's
in-memory file metadata — the whole record, ACL sequence included — after the
handler returns equals the pre-mutation snapshot, and a non-OK status is
reported to the caller; conversely a STATUS_OK answer is only ever produced
when the SS replied STATUS_OK to the UPDATE_ACL persist. -/
theorem acl_persist_failure_rollback (s : NMState) (user flag fn target : String)
    (ex : SSExchange) (entry : FileHashEntry)
    (hmeta : tableLookup s.table fn = some entry) :
    (persistFails ex →
      (tableLookup (handle_addaccess s user flag fn target ex).2.table fn).map
        (·.metadata) = some entry.metadata ∧
      (handle_addaccess s user flag fn target ex).1 ≠ STATUS_OK) ∧
    (persistFails ex →
      (tableLookup (handle_remaccess s user fn target ex).2.table fn).map
        (·.metadata) = some entry.metadata ∧
      (handle_remaccess s user fn target ex).1 ≠ STATUS_OK) ∧
    ((handle_addaccess s user flag fn target ex).1 = STATUS_OK →
      ∃ d, ex = .reply STATUS_OK d) ∧
    ((handle_remaccess s user fn target ex).1 = STATUS_OK →
      ∃ d, ex = .reply STATUS_OK d) := by
  have hadd := addaccess_outcome s user flag fn target ex entry hmeta
  have hrem := remaccess_outcome s user fn target ex entry hmeta
  refine ⟨?_, ?_, ?_, ?_⟩
  · intro hfail
    rcases hadd with ⟨_, d, rfl⟩ | hr
    · exact absurd rfl hfail
    · exact hr
  · intro hfail
    rcases hrem with ⟨_, d, rfl⟩ | hr
    · exact absurd rfl hfail
    · exact hr
  · intro hok
    rcases hadd with ⟨_, hd⟩ | ⟨_, hne⟩
    · exact hd
    · exact absurd hok hne
  · intro hok
    rcases hrem with ⟨_, hd⟩ | ⟨_, hne⟩
    · exact hd
    · exact absurd hok hne

namespace NameServer

theorem find_file_of_lookup_none (s : NMState) (fn : String)
    (h : tableLookup s.table fn = none) : find_file_in_table s fn = (none, s) := by
  by_cases hm : fn ∈ s.cache
  · exact find_file_hit_none s fn hm h
  · exact find_file_miss_none s fn hm h

/-- A CREATE of a fresh, valid filename whose storage server confirms reduces
to inserting the new FileRecord. -/
theorem create_success_eq (s : NMState) (user fn : String) (now : Nat)
    (fd : Int) (d : String) (hv : validate_filename fn = true)
    (hfresh : tableLookup s.table fn = none) :
    handle_create_file s user fn now (some fd) (.reply STATUS_OK d)
      = (STATUS_OK,
         { s with table := (add_file_to_table s.table fn fd
             (create_metadata fn user now)).1 }, true) := by
  rw [handle_create_file, if_neg (fun hc => hc hv),
    find_file_of_lookup_none s fn hfresh]
  rfl

/-- A CREATE of a filename already present in the directory answers
FILE_EXISTS from NM-local state, with no storage-node exchange. -/
theorem create_exists_eq (s : NMState) (user fn : String) (now : Nat)
    (sel : Option Int) (ex : SSExchange) (e : FileHashEntry)
    (hv : validate_filename fn = true)
    (hsome : tableLookup s.table fn = some e) :
    handle_create_file s user fn now sel ex
      = (STATUS_ERROR_FILE_EXISTS, (find_file_in_table s fn).2, false) := by
  rw [handle_create_file, if_neg (fun hc => hc hv)]
  by_cases hm : fn ∈ s.cache
  · rw [find_file_hit_some s fn e hm hsome]
  · rw [find_file_miss_some s fn e hm hsome]

/-- A successful DELETE leaves neither a cache node nor a table record for
the deleted filename. -/
theorem delete_outcome (s : NMState) (user fn : String) (av : Bool)
    (ex : SSExchange) (hinv : Inv s)
    (hok : (handle_delete_file s user fn av ex).1 = STATUS_OK) :
    fn ∉ (handle_delete_file s user fn av ex).2.cache ∧
    tableLookup (handle_delete_file s user fn av ex).2.table fn = none := by
  revert hok
  simp only [handle_delete_file]
  split
  next s1 heq =>
    intro hok
    exact absurd hok (by norm_num [STATUS_ERROR_NOT_FOUND, STATUS_OK])
  next x s1 heq =>
    have h1 : Inv s1 := by have hf := inv_find s fn hinv; rw [heq] at hf; exact hf
    split
    · intro hok
      exact absurd hok (by norm_num [STATUS_ERROR_SERVER_UNAVAILABLE, STATUS_OK])
    · split
      · intro hok
        exact absurd hok (by norm_num [STATUS_ERROR_NETWORK, STATUS_OK])
      · intro hok
        exact absurd hok (by norm_num [STATUS_ERROR_NETWORK, STATUS_OK])
      next st d =>
        split
        next hst =>
          intro hok
          exact absurd hok hst
        next hst =>
          intro hok
          constructor
          · show fn ∉ remove_file_from_lru_cache s1.cache fn
            intro hmem
            have hmem2 : fn ∈ s1.cache.erase fn := hmem
            exact ((h1.1.mem_erase_iff).mp hmem2).1 rfl
          · show tableLookup (remove_file_from_table s1.table fn).1 fn = none
            exact tableLookup_remove_self _ _ h1.2.2

theorem take_append_take {α : Type} (a b : List α) (n : Nat) :
    (a ++ b.take n).take n = (a ++ b).take n := by
  rw [List.take_append_eq_append_take, List.take_append_eq_append_take,
    List.take_take, Nat.min_eq_left (Nat.sub_le n a.length)]

/-- A sequence of `find_file_in_table` calls, state-threaded in order. -/
def findMany (s : NMState) (fs : List String) : NMState :=
  fs.foldl (fun st g => (find_file_in_table st g).2) s

/-- Running distinct, uncached, table-resident lookups leaves the table
untouched and the cache holding the 10 most recent names, MRU first. -/
theorem findMany_cache (fs : List String) (s : NMState)
    (hnd : fs.Nodup) (htbl : ∀ g ∈ fs, (tableLookup s.table g).isSome = true)
    (hnc : ∀ g ∈ fs, g ∉ s.cache) (hlen : s.cache.length ≤ 10) :
    (findMany s fs).cache = (fs.reverse ++ s.cache).take 10 ∧
    (findMany s fs).table = s.table := by
  induction fs generalizing s with
  | nil =>
    exact ⟨(List.take_of_length_le hlen).symm, rfl⟩
  | cons f fs ih =>
    have hm : f ∉ s.cache := hnc f (List.mem_cons_self f fs)
    obtain ⟨e, he⟩ := Option.isSome_iff_exists.mp (htbl f (List.mem_cons_self f fs))
    have hstep : find_file_in_table s f
        = (some e, { s with cache := lru_put s.cache f }) :=
      find_file_miss_some s f e hm he
    have hput : lru_put s.cache f = (f :: s.cache).take 10 := by
      rw [lru_put, if_neg (not_contains_of_not_mem hm)]
      by_cases hcap : LRU_CACHE_CAPACITY ≤ s.cache.length
      · rw [if_pos hcap]
        have hlen10 : s.cache.length = 10 :=
          Nat.le_antisymm hlen hcap
        rw [List.take_succ_cons, List.dropLast_eq_take, hlen10]
      · rw [if_neg hcap]
        rw [List.take_succ_cons,
          List.take_of_length_le (by
            have hlt : s.cache.length < 10 := by
              simpa [LRU_CACHE_CAPACITY] using hcap
            omega)]
    have hrun : findMany s (f :: fs)
        = findMany { s with cache := lru_put s.cache f } fs := by
      show (List.foldl (fun st g => (find_file_in_table st g).2) _ (f :: fs)) = _
      rw [List.foldl_cons, hstep]
      rfl
    have hrec := ih { s with cache := lru_put s.cache f }
      (List.nodup_cons.mp hnd).2
      (fun g hg => htbl g (List.mem_cons_of_mem f hg))
      (fun g hg hmem => by
        rw [show ({ s with cache := lru_put s.cache f } : NMState).cache
            = lru_put s.cache f from rfl, hput] at hmem
        have hgm := List.mem_of_mem_take hmem
        rcases List.mem_cons.mp hgm with hgf | hgc
        · exact (List.nodup_cons.mp hnd).1 (hgf ▸ hg)
        · exact hnc g (List.mem_cons_of_mem f hg) hgc)
      (by
        rw [show ({ s with cache := lru_put s.cache f } : NMState).cache
            = lru_put s.cache f from rfl, hput, List.length_take]
        exact Nat.le_trans (Nat.min_le_left _ _) (Nat.le_refl 10))
    constructor
    · rw [hrun, hrec.1]
      rw [show ({ s with cache := lru_put s.cache f } : NMState).cache
          = lru_put s.cache f from rfl, hput, take_append_take]
      rw [List.reverse_cons, List.append_assoc]
      rfl
    · rw [hrun, hrec.2]

/-- Concrete one-file directory used by the witnesses: "doc.txt" created by
alice on storage node 2 at time 7, starting from the empty directory. -/
def demoState : NMState :=
  applyOp ⟨init_file_hash_table, []⟩
    (.create "alice" "doc.txt" 7 (some 2) (.reply STATUS_OK "created"))

/-- Eleven distinct filenames for the LRU-eviction witness. -/
def wNames : List String :=
  ["f0", "f1", "f2", "f3", "f4", "f5", "f6", "f7", "f8", "f9", "f10"]

/-- A directory holding the eleven witness files. -/
def wTable : FileHashTable :=
  wNames.foldl
    (fun t g => (add_file_to_table t g 1 (create_metadata g "alice" 0)).1)
    init_file_hash_table

end NameServer

open NameServer in
/-- C1 witness: on the one-file directory `demoState` ("doc.txt" owned by
alice), a failed send of the UPDATE_ACL persist rolls the metadata back and
reports failure for both ADDACCESS and REMACCESS. -/
theorem acl_persist_failure_rollback_witness :
    tableLookup demoState.table "doc.txt"
      = some ⟨"doc.txt", 2, create_metadata "doc.txt" "alice" 7⟩ ∧
    ((persistFails .sendFail →
      (tableLookup (handle_addaccess demoState "alice" "R" "doc.txt" "bob"
          .sendFail).2.table "doc.txt").map (·.metadata)
        = some (create_metadata "doc.txt" "alice" 7) ∧
      (handle_addaccess demoState "alice" "R" "doc.txt" "bob" .sendFail).1
        ≠ STATUS_OK) ∧
    (persistFails .sendFail →
      (tableLookup (handle_remaccess demoState "alice" "doc.txt" "bob"
          .sendFail).2.table "doc.txt").map (·.metadata)
        = some (create_metadata "doc.txt" "alice" 7) ∧
      (handle_remaccess demoState "alice" "doc.txt" "bob" .sendFail).1
        ≠ STATUS_OK) ∧
    ((handle_addaccess demoState "alice" "R" "doc.txt" "bob" .sendFail).1
        = STATUS_OK → ∃ d, SSExchange.sendFail = .reply STATUS_OK d) ∧
    ((handle_remaccess demoState "alice" "doc.txt" "bob" .sendFail).1
        = STATUS_OK → ∃ d, SSExchange.sendFail = .reply STATUS_OK d)) :=
  ⟨by decide,
   acl_persist_failure_rollback demoState "alice" "R" "doc.txt" "bob" .sendFail
     ⟨"doc.txt", 2, create_metadata "doc.txt" "alice" 7⟩ (by decide)⟩

open NameServer in
/-- C2 counterexample: the FileRecord inserted by a successful CREATE of
"doc.txt" by alice does NOT have an empty ACL — `create_metadata` (mirroring
`create_file_metadata`, which writes the `access_0 owner RW` line) puts the
owner into the ACL with READ|WRITE, so the owner IS present in the ACL
sequence, contradicting both parts of the claimed invariant. -/
theorem create_owner_acl_cex :
    (tableLookup demoState.table "doc.txt").map (fun e => e.metadata.acl)
        = some [("alice", ACCESS_BOTH)] ∧
    (tableLookup demoState.table "doc.txt").map (fun e => e.metadata.acl)
        ≠ some [] := by
  exact ⟨by decide, by decide⟩

open NameServer in
/-- C2 (amended): every successful CREATE of file `fn` by `user` inserts a
FileRecord with owner = `user` whose ACL is exactly `[(user, READ|WRITE)]`:
the owner is explicitly present in the ACL with both permissions from the
moment of creation (not an empty ACL with implicit owner access). -/
theorem create_inserts_owner_acl (s : NMState) (user fn : String) (now : Nat)
    (fd : Int) (d : String) (hv : validate_filename fn = true)
    (hfresh : tableLookup s.table fn = none) :
    (handle_create_file s user fn now (some fd) (.reply STATUS_OK d)).1
      = STATUS_OK ∧
    (tableLookup (handle_create_file s user fn now (some fd)
        (.reply STATUS_OK d)).2.1.table fn).map
      (fun e => (e.metadata.owner, e.metadata.acl))
      = some (user, [(user, ACCESS_BOTH)]) := by
  rw [create_success_eq s user fn now fd d hv hfresh]
  refine ⟨rfl, ?_⟩
  show (tableLookup (add_file_to_table s.table fn fd
      (create_metadata fn user now)).1 fn).map
    (fun e => (e.metadata.owner, e.metadata.acl))
    = some (user, [(user, ACCESS_BOTH)])
  rw [tableLookup_add_self]
  rfl

open NameServer in
/-- C2 witness: creating "doc.txt" as alice in the empty directory yields
STATUS_OK and a record whose owner is alice and whose ACL is exactly
[(alice, READ|WRITE)]. -/
theorem create_inserts_owner_acl_witness :
    (validate_filename "doc.txt" = true ∧
     tableLookup init_file_hash_table "doc.txt" = none) ∧
    ((handle_create_file ⟨init_file_hash_table, []⟩ "alice" "doc.txt" 7
        (some 2) (.reply STATUS_OK "created")).1 = STATUS_OK ∧
     (tableLookup (handle_create_file ⟨init_file_hash_table, []⟩ "alice"
          "doc.txt" 7 (some 2) (.reply STATUS_OK "created")).2.1.table
        "doc.txt").map (fun e => (e.metadata.owner, e.metadata.acl))
       = some ("alice", [("alice", ACCESS_BOTH)])) :=
  ⟨⟨by decide, by decide⟩,
   create_inserts_owner_acl ⟨init_file_hash_table, []⟩ "alice" "doc.txt" 7 2
     "created" (by decide) (by decide)⟩

open NameServer in
/-- C7: CREATE of a fresh valid name succeeds; a second CREATE of the same
name answers FILE_EXISTS without forwarding anything to a storage node (the
returned flag is false), and leaves the whole hash table — hence the total
file count and the file's record (owner, ACL, owning node) — unchanged. -/
theorem create_rejects_duplicate (s : NMState) (user u2 fn : String)
    (now now2 : Nat) (fd : Int) (d : String) (sel2 : Option Int)
    (ex2 : SSExchange) (hv : validate_filename fn = true)
    (hfresh : tableLookup s.table fn = none) :
    (handle_create_file s user fn now (some fd) (.reply STATUS_OK d)).1
      = STATUS_OK ∧
    (handle_create_file
        (handle_create_file s user fn now (some fd) (.reply STATUS_OK d)).2.1
        u2 fn now2 sel2 ex2).1 = STATUS_ERROR_FILE_EXISTS ∧
    (handle_create_file
        (handle_create_file s user fn now (some fd) (.reply STATUS_OK d)).2.1
        u2 fn now2 sel2 ex2).2.2 = false ∧
    (handle_create_file
        (handle_create_file s user fn now (some fd) (.reply STATUS_OK d)).2.1
        u2 fn now2 sel2 ex2).2.1.table
      = (handle_create_file s user fn now (some fd) (.reply STATUS_OK d)).2.1.table ∧
    tableLookup (handle_create_file
        (handle_create_file s user fn now (some fd) (.reply STATUS_OK d)).2.1
        u2 fn now2 sel2 ex2).2.1.table fn
      = some ⟨fn, fd, create_metadata fn user now⟩ := by
  rw [create_success_eq s user fn now fd d hv hfresh]
  have hlook := tableLookup_add_self s.table fn fd (create_metadata fn user now)
  rw [create_exists_eq
    { s with table := (add_file_to_table s.table fn fd
        (create_metadata fn user now)).1 }
    u2 fn now2 sel2 ex2 ⟨fn, fd, create_metadata fn user now⟩ hv hlook]
  refine ⟨rfl, rfl, rfl, ?_, ?_⟩
  · exact find_file_table
      { s with table := (add_file_to_table s.table fn fd
          (create_metadata fn user now)).1 } fn
  · show tableLookup (find_file_in_table
        { s with table := (add_file_to_table s.table fn fd
            (create_metadata fn user now)).1 } fn).2.table fn
      = some ⟨fn, fd, create_metadata fn user now⟩
    rw [find_file_table]
    exact hlook

open NameServer in
/-- C7 witness: concrete double CREATE of "doc.txt" starting from the empty
directory. -/
theorem create_rejects_duplicate_witness :
    (validate_filename "doc.txt" = true ∧
     tableLookup init_file_hash_table "doc.txt" = none) ∧
    ((handle_create_file ⟨init_file_hash_table, []⟩ "alice" "doc.txt" 7
        (some 2) (.reply STATUS_OK "created")).1 = STATUS_OK ∧
     (handle_create_file
        (handle_create_file ⟨init_file_hash_table, []⟩ "alice" "doc.txt" 7
          (some 2) (.reply STATUS_OK "created")).2.1
        "bob" "doc.txt" 9 (some 5) (.reply STATUS_OK "again")).1
       = STATUS_ERROR_FILE_EXISTS ∧
     (handle_create_file
        (handle_create_file ⟨init_file_hash_table, []⟩ "alice" "doc.txt" 7
          (some 2) (.reply STATUS_OK "created")).2.1
        "bob" "doc.txt" 9 (some 5) (.reply STATUS_OK "again")).2.2 = false ∧
     (handle_create_file
        (handle_create_file ⟨init_file_hash_table, []⟩ "alice" "doc.txt" 7
          (some 2) (.reply STATUS_OK "created")).2.1
        "bob" "doc.txt" 9 (some 5) (.reply STATUS_OK "again")).2.1.table
       = (handle_create_file ⟨init_file_hash_table, []⟩ "alice" "doc.txt" 7
          (some 2) (.reply STATUS_OK "created")).2.1.table ∧
     tableLookup (handle_create_file
        (handle_create_file ⟨init_file_hash_table, []⟩ "alice" "doc.txt" 7
          (some 2) (.reply STATUS_OK "created")).2.1
        "bob" "doc.txt" 9 (some 5) (.reply STATUS_OK "again")).2.1.table
        "doc.txt"
       = some ⟨"doc.txt", 2, create_metadata "doc.txt" "alice" 7⟩) :=
  ⟨⟨by decide, by decide⟩,
   create_rejects_duplicate ⟨init_file_hash_table, []⟩ "alice" "bob" "doc.txt"
     7 9 2 "created" (some 5) (.reply STATUS_OK "again")
     (by decide) (by decide)⟩

open NameServer in
/-- C8: starting from an empty cache, after 11 Find lookups of distinct
table-resident names, the first-looked-up name has been evicted from the
(capacity-10) LRU cache, yet a further Find for it still succeeds via the
hash table and re-inserts it at the cache's MRU position. -/
theorem lru_eviction_refill (tbl : FileHashTable) (f0 : String)
    (rest : List String) (hnd : (f0 :: rest).Nodup) (hlen : rest.length = 10)
    (htbl : ∀ g ∈ f0 :: rest, (tableLookup tbl g).isSome = true) :
    f0 ∉ (findMany ⟨tbl, []⟩ (f0 :: rest)).cache ∧
    (find_file_in_table (findMany ⟨tbl, []⟩ (f0 :: rest)) f0).1
      = tableLookup tbl f0 ∧
    (tableLookup tbl f0).isSome = true ∧
    f0 ∈ (find_file_in_table (findMany ⟨tbl, []⟩ (f0 :: rest)) f0).2.cache := by
  have hfm := findMany_cache (f0 :: rest) ⟨tbl, []⟩ hnd htbl
    (fun g _ hg => List.not_mem_nil g hg) (Nat.zero_le 10)
  have hcache : (findMany ⟨tbl, []⟩ (f0 :: rest)).cache = rest.reverse := by
    rw [hfm.1, List.append_nil, List.reverse_cons,
      List.take_left' (by rw [List.length_reverse]; exact hlen)]
  have hnotc : f0 ∉ (findMany ⟨tbl, []⟩ (f0 :: rest)).cache := by
    rw [hcache]
    exact fun hmem => (List.nodup_cons.mp hnd).1 (List.mem_reverse.mp hmem)
  obtain ⟨e, he⟩ := Option.isSome_iff_exists.mp
    (htbl f0 (List.mem_cons_self f0 rest))
  have hstep := find_file_miss_some (findMany ⟨tbl, []⟩ (f0 :: rest)) f0 e
    hnotc (by rw [hfm.2]; exact he)
  refine ⟨hnotc, ?_, ?_, ?_⟩
  · rw [hstep, he]
  · rw [he]
    rfl
  · rw [hstep]
    show f0 ∈ lru_put (findMany ⟨tbl, []⟩ (f0 :: rest)).cache f0
    rw [lru_put, if_neg (not_contains_of_not_mem hnotc)]
    exact List.mem_cons_self f0 _

open NameServer in
/-- C8 witness: eleven concrete files f0..f10 in the directory `wTable`;
after looking all of them up in order starting from the empty cache, "f0" is
evicted but a further Find for it hits the table and re-caches it. -/
theorem lru_eviction_refill_witness :
    wNames.Nodup ∧
    ("f0" ∉ (findMany ⟨wTable, []⟩ wNames).cache ∧
     (find_file_in_table (findMany ⟨wTable, []⟩ wNames) "f0").1
       = tableLookup wTable "f0" ∧
     (tableLookup wTable "f0").isSome = true ∧
     "f0" ∈ (find_file_in_table (findMany ⟨wTable, []⟩ wNames) "f0").2.cache) :=
  ⟨by decide,
   lru_eviction_refill wTable "f0"
     ["f1", "f2", "f3", "f4", "f5", "f6", "f7", "f8", "f9", "f10"]
     (by decide) (by decide) (by decide)⟩

open NameServer in
/-- C9: in every reachable directory state no LRU-cache entry dangles (every
cached filename is still present in the hash table), and a successful DELETE
leaves neither a cache node nor a table record for the deleted filename —
the cache purge precedes the table removal, and the no-dangling invariant
still holds in the post-DELETE state. -/
theorem cache_entries_never_dangle (s : NMState) (hr : Reachable s)
    (user fn : String) (av : Bool) (ex : SSExchange) :
    NoDangling s ∧
    ((handle_delete_file s user fn av ex).1 = STATUS_OK →
      fn ∉ (handle_delete_file s user fn av ex).2.cache ∧
      tableLookup (handle_delete_file s user fn av ex).2.table fn = none) ∧
    NoDangling (handle_delete_file s user fn av ex).2 := by
  have hinv := reachable_inv hr
  have hafter := reachable_inv (Reachable.step hr (.delete user fn av ex))
  exact ⟨hinv.2.1, delete_outcome s user fn av ex hinv, hafter.2.1⟩

open NameServer in
/-- C9 witness: the reachable one-file state `demoState`, followed by a
successful DELETE of "doc.txt". -/
theorem cache_entries_never_dangle_witness :
    NoDangling demoState ∧
    ((handle_delete_file demoState "alice" "doc.txt" true
        (.reply STATUS_OK "gone")).1 = STATUS_OK →
      "doc.txt" ∉ (handle_delete_file demoState "alice" "doc.txt" true
        (.reply STATUS_OK "gone")).2.cache ∧
      tableLookup (handle_delete_file demoState "alice" "doc.txt" true
        (.reply STATUS_OK "gone")).2.table "doc.txt" = none) ∧
    NoDangling (handle_delete_file demoState "alice" "doc.txt" true
      (.reply STATUS_OK "gone")).2 :=
  cache_entries_never_dangle demoState
    (Reachable.step Reachable.init
      (.create "alice" "doc.txt" 7 (some 2) (.reply STATUS_OK "created")))
    "alice" "doc.txt" true (.reply STATUS_OK "gone")

end DocsPP
